import Mathlib

set_option maxRecDepth 100000

/-!
Shallow embedding of the DNS packet codec of tedbyron/dns-server
(src/packet_parser.rs and src/stub_resolver.rs).

Modelling conventions:
* Machine integers (u8/u16/u32/usize) are `Nat`; at every site where the Rust
  source performs a narrowing `as` cast or a wrapping u8 shift, an explicit
  `% 256` / `% 65536` appears in the embedding.
* The 512-byte array `buf: [u8; 512]` is a `List Nat`; a byte is fetched with
  `List.getD _ 0` (a fresh buffer is 512 zeros) and stored with `List.set`.
* `anyhow::Result` is the inductive `Res`; the distinct `bail!` sites are the
  distinct `DnsError` constructors.
* Rust methods that mutate `&mut self` are functions returning the new value.
* The `loop` of `read_qname` is embedded with an explicit fuel parameter; the
  extra error `DnsError.outOfFuel` is an artifact of that embedding and is
  proved unreachable for the canonical fuel (see the termination theorem).
-/

/-- The error kinds of the codec, one per `bail!` site:
`bufferOverrun` = "End of buffer" / "End of buf",
`compressionLoop` = "Limit of {max_jumps} jumps exceeded",
`labelTooLong` = "Label exceeds 63 character limit".
`outOfFuel` is an artifact of the fuel-based embedding of the `read_qname`
loop, proved unreachable. -/
inductive DnsError where
  | bufferOverrun
  | compressionLoop
  | labelTooLong
  | outOfFuel
deriving DecidableEq, Repr

/-- `anyhow::Result<α>` specialized to the codec's error kinds. -/
inductive Res (α : Type) where
  | ok (val : α)
  | err (e : DnsError)
deriving DecidableEq, Repr

/-- Whether a `Res` is `Ok`. -/
def Res.isOk {α : Type} : Res α → Bool
  | .ok _ => true
  | .err _ => false

/-- `BytePacketBuffer { buf: [u8; 512], pos: usize }`. -/
structure BytePacketBuffer where
  buf : List Nat
  pos : Nat
deriving DecidableEq, Repr

namespace BytePacketBuffer

/-- `BytePacketBuffer::new()`: zeroed 512-byte buffer, cursor 0. -/
def new : BytePacketBuffer := ⟨List.replicate 512 0, 0⟩

/-- `step`: `self.pos += steps; Ok(())` — note: no bounds check in the source. -/
def step (s : BytePacketBuffer) (steps : Nat) : Res BytePacketBuffer :=
  .ok { s with pos := s.pos + steps }

/-- `seek`: `self.pos = pos; Ok(())` — no bounds check in the source. -/
def seek (s : BytePacketBuffer) (pos : Nat) : Res BytePacketBuffer :=
  .ok { s with pos := pos }

/-- `read`: fail if `self.pos >= 512`, else return the byte at `pos` and advance. -/
def read (s : BytePacketBuffer) : Res (Nat × BytePacketBuffer) :=
  if 512 ≤ s.pos then .err .bufferOverrun
  else .ok (s.buf.getD s.pos 0, { s with pos := s.pos + 1 })

/-- `get`: fail if `pos >= 512`, else the byte at `pos`; cursor unchanged. -/
def get (s : BytePacketBuffer) (pos : Nat) : Res Nat :=
  if 512 ≤ pos then .err .bufferOverrun else .ok (s.buf.getD pos 0)

/-- `get_range`: fail if `start + len >= 512`, else `buf[start..start+len]`. -/
def get_range (s : BytePacketBuffer) (start len : Nat) : Res (List Nat) :=
  if 512 ≤ start + len then .err .bufferOverrun
  else .ok ((s.buf.drop start).take len)

/-- `read_u16`: two `read`s, big-endian: `(b1 << 8) | b2`. -/
def read_u16 (s : BytePacketBuffer) : Res (Nat × BytePacketBuffer) :=
  match s.read with
  | .err e => .err e
  | .ok (b1, s) =>
    match s.read with
    | .err e => .err e
    | .ok (b2, s) => .ok ((b1 <<< 8) ||| b2, s)

/-- `read_u32`: four `read`s, big-endian. -/
def read_u32 (s : BytePacketBuffer) : Res (Nat × BytePacketBuffer) :=
  match s.read with
  | .err e => .err e
  | .ok (b1, s) =>
    match s.read with
    | .err e => .err e
    | .ok (b2, s) =>
      match s.read with
      | .err e => .err e
      | .ok (b3, s) =>
        match s.read with
        | .err e => .err e
        | .ok (b4, s) => .ok ((b1 <<< 24) ||| (b2 <<< 16) ||| (b3 <<< 8) ||| b4, s)

end BytePacketBuffer

/-- Byte-level model of the label transformation
`String::from_utf8_lossy(str_buf).to_lowercase()` applied in `read_qname`.
Exact for ASCII bytes (< 0x80): ASCII uppercase maps to lowercase, every other
ASCII byte is unchanged. (For bytes ≥ 0x80 the Rust code performs UTF-8 lossy
decoding and Unicode lowercasing; no claim in this development examines
non-ASCII label bytes.) -/
def lowerByte (b : Nat) : Nat := if 65 ≤ b ∧ b ≤ 90 then b + 32 else b

/-- The `loop` body of `BytePacketBuffer::read_qname`, with explicit fuel.
State carried by the loop: local position `pos`, flag `jumped`,
`jumps` (= `jumps_performed`, bound `max_jumps = 5`), the pending delimiter
`delim` (`""` before the first label, `"."` afterwards) and the accumulated
output string `out` (strings are their byte sequences). -/
def readQnameAux : Nat → BytePacketBuffer → Nat → Bool → Nat → List Nat → List Nat →
    Res (BytePacketBuffer × List Nat)
  | 0, _, _, _, _, _, _ => .err .outOfFuel
  | fuel + 1, s, pos, jumped, jumps, delim, out =>
    if 5 < jumps then .err .compressionLoop
    else
      match s.get pos with
      | .err e => .err e
      | .ok len =>
        if len &&& 0xC0 = 0xC0 then
          match (if !jumped then s.seek (pos + 2) else .ok s) with
          | .err e => .err e
          | .ok s1 =>
            match s1.get (pos + 1) with
            | .err e => .err e
            | .ok b2 =>
              readQnameAux fuel s1 (((len ^^^ 0xC0) <<< 8) ||| b2) true (jumps + 1) delim out
        else
          if len = 0 then
            match (if !jumped then s.seek (pos + 1) else .ok s) with
            | .err e => .err e
            | .ok s1 => .ok (s1, out)
          else
            match s.get_range (pos + 1) len with
            | .err e => .err e
            | .ok str_buf =>
              readQnameAux fuel s (pos + 1 + len) jumped jumps [46]
                (out ++ delim ++ str_buf.map lowerByte)

/-- Fuel that always suffices for `read_qname` (proved in the termination
theorem): at most 6 jumps ever occur and between jumps the local position
strictly increases below 512. -/
def qnameFuel : Nat := 4096

/-- `BytePacketBuffer::read_qname`: returns the buffer (whose shared cursor was
advanced) and the name appended to the (initially empty) output string. -/
def BytePacketBuffer.readQname (s : BytePacketBuffer) :
    Res (BytePacketBuffer × List Nat) :=
  readQnameAux qnameFuel s s.pos false 0 [] []

/-- `ResultCode`. -/
inductive ResultCode where
  | NOERROR
  | FORMERR
  | SERVFAIL
  | NXDOMAIN
  | NOTIMP
  | REFUSED
deriving DecidableEq, Repr

/-- `impl From<u8> for ResultCode`. -/
def ResultCode.fromU8 (n : Nat) : ResultCode :=
  match n with
  | 1 => .FORMERR
  | 2 => .SERVFAIL
  | 3 => .NXDOMAIN
  | 4 => .NOTIMP
  | 5 => .REFUSED
  | _ => .NOERROR

/-- `rescode as u8`: the enum discriminants. -/
def ResultCode.toNat : ResultCode → Nat
  | .NOERROR => 0
  | .FORMERR => 1
  | .SERVFAIL => 2
  | .NXDOMAIN => 3
  | .NOTIMP => 4
  | .REFUSED => 5

/-- `DnsHeader`. -/
structure DnsHeader where
  id : Nat
  recursion_desired : Bool
  truncated_message : Bool
  authoritative_answer : Bool
  opcode : Nat
  response : Bool
  rescode : ResultCode
  checking_disabled : Bool
  authed_data : Bool
  z : Bool
  recursion_available : Bool
  questions : Nat
  answers : Nat
  authoritative_entries : Nat
  resource_entries : Nat
deriving DecidableEq, Repr

/-- `DnsHeader::new()`. -/
def DnsHeader.new : DnsHeader :=
  { id := 0
    recursion_desired := false
    truncated_message := false
    authoritative_answer := false
    opcode := 0
    response := false
    rescode := .NOERROR
    checking_disabled := false
    authed_data := false
    z := false
    recursion_available := false
    questions := 0
    answers := 0
    authoritative_entries := 0
    resource_entries := 0 }

/-- `DnsHeader::read`: the source mutates a `DnsHeader::new()`; modelled by
returning the populated header. `(flags >> 8) as u8` is `% 256`. -/
def DnsHeader.read (s : BytePacketBuffer) : Res (DnsHeader × BytePacketBuffer) :=
  match s.read_u16 with
  | .err e => .err e
  | .ok (id, s) =>
    match s.read_u16 with
    | .err e => .err e
    | .ok (flags, s) =>
      let a := (flags >>> 8) % 256
      let b := flags &&& 0xFF
      match s.read_u16 with
      | .err e => .err e
      | .ok (questions, s) =>
        match s.read_u16 with
        | .err e => .err e
        | .ok (answers, s) =>
          match s.read_u16 with
          | .err e => .err e
          | .ok (authoritative_entries, s) =>
            match s.read_u16 with
            | .err e => .err e
            | .ok (resource_entries, s) =>
              .ok
                ({ id := id
                   recursion_desired := decide (0 < a &&& 1)
                   truncated_message := decide (0 < a &&& (1 <<< 1))
                   authoritative_answer := decide (0 < a &&& (1 <<< 2))
                   opcode := (a >>> 3) &&& 0x0F
                   response := decide (0 < a &&& (1 <<< 7))
                   rescode := ResultCode.fromU8 (b &&& 0x0F)
                   checking_disabled := decide (0 < b &&& (1 <<< 4))
                   authed_data := decide (0 < b &&& (1 <<< 5))
                   z := decide (0 < b &&& (1 <<< 6))
                   recursion_available := decide (0 < b &&& (1 <<< 7))
                   questions := questions
                   answers := answers
                   authoritative_entries := authoritative_entries
                   resource_entries := resource_entries }, s)

/-- `QueryType`. -/
inductive QueryType where
  | UNKNOWN (n : Nat)
  | A
deriving DecidableEq, Repr

/-- `impl From<u16> for QueryType`. -/
def QueryType.ofNat (n : Nat) : QueryType :=
  match n with
  | 1 => .A
  | _ => .UNKNOWN n

/-- `impl From<QueryType> for u16`. -/
def QueryType.toNat : QueryType → Nat
  | .A => 1
  | .UNKNOWN n => n

/-- `DnsQuestion` (the name is its byte sequence). -/
structure DnsQuestion where
  name : List Nat
  qtype : QueryType
deriving DecidableEq, Repr

/-- `DnsQuestion::read`: the source reads into a question created as
`DnsQuestion::new("".to_string(), QueryType::UNKNOWN(0))` (so `read_qname`
appends to the empty string); modelled by returning the populated question.
The class field is read and discarded. -/
def DnsQuestion.read (s : BytePacketBuffer) : Res (DnsQuestion × BytePacketBuffer) :=
  match s.readQname with
  | .err e => .err e
  | .ok (s, name) =>
    match s.read_u16 with
    | .err e => .err e
    | .ok (qt, s) =>
      match s.read_u16 with
      | .err e => .err e
      | .ok (_, s) => .ok ({ name := name, qtype := QueryType.ofNat qt }, s)

/-- `std::net::Ipv4Addr` as its four octets. -/
structure Ipv4Addr where
  o1 : Nat
  o2 : Nat
  o3 : Nat
  o4 : Nat
deriving DecidableEq, Repr

/-- `DnsRecord`. -/
inductive DnsRecord where
  | UNKNOWN (domain : List Nat) (qtype : Nat) (data_len : Nat) (ttl : Nat)
  | A (domain : List Nat) (addr : Ipv4Addr) (ttl : Nat)
deriving DecidableEq, Repr

/-- `DnsRecord::read`. For the A type the four octets are extracted from the
raw u32 by shifting and masking; for an unknown type `step(data_len)` skips
the payload (no bounds check in `step`). -/
def DnsRecord.read (s : BytePacketBuffer) : Res (DnsRecord × BytePacketBuffer) :=
  match s.readQname with
  | .err e => .err e
  | .ok (s, domain) =>
    match s.read_u16 with
    | .err e => .err e
    | .ok (qtype_num, s) =>
      match s.read_u16 with
      | .err e => .err e
      | .ok (_, s) =>
        match s.read_u32 with
        | .err e => .err e
        | .ok (ttl, s) =>
          match s.read_u16 with
          | .err e => .err e
          | .ok (data_len, s) =>
            match QueryType.ofNat qtype_num with
            | .A =>
              match s.read_u32 with
              | .err e => .err e
              | .ok (raw_addr, s) =>
                .ok (.A domain
                  ⟨(raw_addr >>> 24) &&& 0xFF, (raw_addr >>> 16) &&& 0xFF,
                   (raw_addr >>> 8) &&& 0xFF, raw_addr &&& 0xFF⟩ ttl, s)
            | .UNKNOWN _ =>
              match s.step data_len with
              | .err e => .err e
              | .ok s => .ok (.UNKNOWN domain qtype_num data_len ttl, s)

/-- `DnsPacket`. -/
structure DnsPacket where
  header : DnsHeader
  questions : List DnsQuestion
  answers : List DnsRecord
  authorities : List DnsRecord
  resources : List DnsRecord
deriving DecidableEq, Repr

/-- `DnsPacket::new()`. -/
def DnsPacket.new : DnsPacket :=
  { header := DnsHeader.new
    questions := []
    answers := []
    authorities := []
    resources := [] }

/-- The `for _ in 0..res.header.questions` loop of `from_buffer`. -/
def readQuestions : BytePacketBuffer → Nat → Res (List DnsQuestion × BytePacketBuffer)
  | s, 0 => .ok ([], s)
  | s, n + 1 =>
    match DnsQuestion.read s with
    | .err e => .err e
    | .ok (q, s) =>
      match readQuestions s n with
      | .err e => .err e
      | .ok (qs, s) => .ok (q :: qs, s)

/-- The record-section loops of `from_buffer`. -/
def readRecords : BytePacketBuffer → Nat → Res (List DnsRecord × BytePacketBuffer)
  | s, 0 => .ok ([], s)
  | s, n + 1 =>
    match DnsRecord.read s with
    | .err e => .err e
    | .ok (r, s) =>
      match readRecords s n with
      | .err e => .err e
      | .ok (rs, s) => .ok (r :: rs, s)

/-- `DnsPacket::from_buffer`. -/
def DnsPacket.from_buffer (s : BytePacketBuffer) : Res DnsPacket :=
  match DnsHeader.read s with
  | .err e => .err e
  | .ok (header, s) =>
    match readQuestions s header.questions with
    | .err e => .err e
    | .ok (questions, s) =>
      match readRecords s header.answers with
      | .err e => .err e
      | .ok (answers, s) =>
        match readRecords s header.authoritative_entries with
        | .err e => .err e
        | .ok (authorities, s) =>
          match readRecords s header.resource_entries with
          | .err e => .err e
          | .ok (resources, _) =>
            .ok { header := header, questions := questions, answers := answers,
                  authorities := authorities, resources := resources }

/-! ### stub_resolver.rs: the write half -/

namespace BytePacketBuffer

/-- `BytePacketBuffer::write` (stub_resolver.rs): fail if `pos >= 512`, else
store the byte at `pos` and advance. -/
def write (s : BytePacketBuffer) (val : Nat) : Res BytePacketBuffer :=
  if 512 ≤ s.pos then .err .bufferOverrun
  else .ok { buf := s.buf.set s.pos val, pos := s.pos + 1 }

/-- `write_u8`. -/
def write_u8 (s : BytePacketBuffer) (val : Nat) : Res BytePacketBuffer :=
  s.write val

/-- `write_u16`: `(val >> 8) as u8` then `(val & 0xFF) as u8`. -/
def write_u16 (s : BytePacketBuffer) (val : Nat) : Res BytePacketBuffer :=
  match s.write ((val >>> 8) % 256) with
  | .err e => .err e
  | .ok s => s.write (val &&& 0xFF)

/-- `write_u32`: four bytes, most significant first. -/
def write_u32 (s : BytePacketBuffer) (val : Nat) : Res BytePacketBuffer :=
  match s.write ((val >>> 24) &&& 0xFF) with
  | .err e => .err e
  | .ok s =>
    match s.write ((val >>> 16) &&& 0xFF) with
    | .err e => .err e
    | .ok s =>
      match s.write ((val >>> 8) &&& 0xFF) with
      | .err e => .err e
      | .ok s => s.write (val &&& 0xFF)

end BytePacketBuffer

/-- `qname.split('.')` on the name's bytes (the separator `'.'` is byte 46;
Rust's `split` on the empty string yields one empty piece). -/
def splitOnDot : List Nat → List (List Nat)
  | [] => [[]]
  | b :: rest =>
    if b = 46 then [] :: splitOnDot rest
    else
      match splitOnDot rest with
      | l :: ls => (b :: l) :: ls
      | [] => [[b]]

/-- The inner `for &b in label.as_bytes()` loop of `write_qname`. -/
def writeBytes : BytePacketBuffer → List Nat → Res BytePacketBuffer
  | s, [] => .ok s
  | s, b :: bs =>
    match s.write_u8 b with
    | .err e => .err e
    | .ok s => writeBytes s bs

/-- The `for label in qname.split('.')` loop of `write_qname`: length check
(`len > 0x3f` fails), length byte, label bytes. -/
def writeLabels : BytePacketBuffer → List (List Nat) → Res BytePacketBuffer
  | s, [] => .ok s
  | s, l :: ls =>
    if 0x3f < l.length then .err .labelTooLong
    else
      match s.write_u8 l.length with
      | .err e => .err e
      | .ok s =>
        match writeBytes s l with
        | .err e => .err e
        | .ok s => writeLabels s ls

/-- `BytePacketBuffer::write_qname`: every label, then the 0 terminator. -/
def BytePacketBuffer.write_qname (s : BytePacketBuffer) (qname : List Nat) :
    Res BytePacketBuffer :=
  match writeLabels s (splitOnDot qname) with
  | .err e => .err e
  | .ok s => s.write_u8 0

/-- `b as u8` for a `bool`. -/
def boolNat (b : Bool) : Nat := if b then 1 else 0

/-- `DnsHeader::write`. The flag bits are packed exactly as in the source;
`self.opcode << 3` is a u8 shift, hence the `% 256`. -/
def DnsHeader.write (h : DnsHeader) (s : BytePacketBuffer) : Res BytePacketBuffer :=
  match s.write_u16 h.id with
  | .err e => .err e
  | .ok s =>
    match s.write_u8
        (boolNat h.recursion_desired |||
          (boolNat h.truncated_message <<< 1) |||
          (boolNat h.authoritative_answer <<< 2) |||
          ((h.opcode <<< 3) % 256) |||
          (boolNat h.response <<< 7)) with
    | .err e => .err e
    | .ok s =>
      match s.write_u8
          (h.rescode.toNat |||
            (boolNat h.checking_disabled <<< 4) |||
            (boolNat h.authed_data <<< 5) |||
            (boolNat h.z <<< 6) |||
            (boolNat h.recursion_available <<< 7)) with
      | .err e => .err e
      | .ok s =>
        match s.write_u16 h.questions with
        | .err e => .err e
        | .ok s =>
          match s.write_u16 h.answers with
          | .err e => .err e
          | .ok s =>
            match s.write_u16 h.authoritative_entries with
            | .err e => .err e
            | .ok s => s.write_u16 h.resource_entries

/-- `DnsQuestion::write`: name, qtype code, class constant 1. -/
def DnsQuestion.write (q : DnsQuestion) (s : BytePacketBuffer) : Res BytePacketBuffer :=
  match s.write_qname q.name with
  | .err e => .err e
  | .ok s =>
    match s.write_u16 q.qtype.toNat with
    | .err e => .err e
    | .ok s => s.write_u16 1

/-- `DnsRecord::write`: an A record writes name, type 1, class 1, TTL,
length 4 and the four octets; an UNKNOWN record writes nothing (it is only
logged and skipped). Returns the number of bytes written. -/
def DnsRecord.write (r : DnsRecord) (s : BytePacketBuffer) : Res (Nat × BytePacketBuffer) :=
  let start_pos := s.pos
  match r with
  | .A domain addr ttl =>
    match s.write_qname domain with
    | .err e => .err e
    | .ok s =>
      match s.write_u16 QueryType.A.toNat with
      | .err e => .err e
      | .ok s =>
        match s.write_u16 1 with
        | .err e => .err e
        | .ok s =>
          match s.write_u32 ttl with
          | .err e => .err e
          | .ok s =>
            match s.write_u16 4 with
            | .err e => .err e
            | .ok s =>
              match s.write_u8 addr.o1 with
              | .err e => .err e
              | .ok s =>
                match s.write_u8 addr.o2 with
                | .err e => .err e
                | .ok s =>
                  match s.write_u8 addr.o3 with
                  | .err e => .err e
                  | .ok s =>
                    match s.write_u8 addr.o4 with
                    | .err e => .err e
                    | .ok s => .ok (s.pos - start_pos, s)
  | .UNKNOWN _ _ _ _ => .ok (s.pos - start_pos, s)

/-- The question loop of `DnsPacket::write`. -/
def writeQuestionList : BytePacketBuffer → List DnsQuestion → Res BytePacketBuffer
  | s, [] => .ok s
  | s, q :: qs =>
    match q.write s with
    | .err e => .err e
    | .ok s => writeQuestionList s qs

/-- The record loops of `DnsPacket::write` (the per-record byte count is
discarded, as in the source). -/
def writeRecordList : BytePacketBuffer → List DnsRecord → Res BytePacketBuffer
  | s, [] => .ok s
  | s, r :: rs =>
    match r.write s with
    | .err e => .err e
    | .ok (_, s) => writeRecordList s rs

/-- The header-count overwrite performed at the top of `DnsPacket::write`:
`self.header.questions = self.questions.len() as u16` and the three record
sections likewise (`len as u16` is `% 65536`). -/
def fixCounts (p : DnsPacket) : DnsPacket :=
  { p with
    header :=
      { p.header with
        questions := p.questions.length % 65536
        answers := p.answers.length % 65536
        authoritative_entries := p.authorities.length % 65536
        resource_entries := p.resources.length % 65536 } }

/-- `DnsPacket::write`: overwrite the four header counts with the section
lengths (see `fixCounts`), write the header, then the four sections in order.
The source mutates `&mut self`; the updated packet is returned alongside the
buffer. -/
def DnsPacket.write (p : DnsPacket) (s : BytePacketBuffer) :
    Res (DnsPacket × BytePacketBuffer) :=
  match (fixCounts p).header.write s with
  | .err e => .err e
  | .ok s =>
    match writeQuestionList s p.questions with
    | .err e => .err e
    | .ok s =>
      match writeRecordList s p.answers with
      | .err e => .err e
      | .ok s =>
        match writeRecordList s p.authorities with
        | .err e => .err e
        | .ok s =>
          match writeRecordList s p.resources with
          | .err e => .err e
          | .ok s => .ok (fixCounts p, s)

/-! ### Helper lemmas: bytes in lists, machine arithmetic -/

theorem getD_set_self {l : List Nat} {i : Nat} {v : Nat} (h : i < l.length) :
    (l.set i v).getD i 0 = v := by
  simp [List.getD_eq_getElem?_getD, List.getElem?_set_self h]

theorem getD_set_ne {l : List Nat} {i j : Nat} {v : Nat} (h : i ≠ j) :
    (l.set i v).getD j 0 = l.getD j 0 := by
  simp [List.getD_eq_getElem?_getD, List.getElem?_set_ne h]

theorem lor_eq_add {k x y : Nat} (hx : x % 2 ^ k = 0) (hy : y < 2 ^ k) :
    x ||| y = x + y := by
  have hxx : 2 ^ k * (x / 2 ^ k) = x := Nat.mul_div_cancel' (Nat.dvd_of_mod_eq_zero hx)
  calc x ||| y = 2 ^ k * (x / 2 ^ k) ||| y := by rw [hxx]
    _ = 2 ^ k * (x / 2 ^ k) + y := (Nat.mul_add_lt_is_or hy _).symm
    _ = x + y := by rw [hxx]

theorem and_255 (v : Nat) : v &&& 0xFF = v % 256 := by
  have := Nat.and_pow_two_sub_one_eq_mod v 8
  norm_num at this
  exact this

theorem and_15 (v : Nat) : v &&& 0x0F = v % 16 := by
  have := Nat.and_pow_two_sub_one_eq_mod v 4
  norm_num at this
  exact this

theorem shiftR_8 (v : Nat) : v >>> 8 = v / 256 := by
  have := Nat.shiftRight_eq_div_pow v 8
  norm_num at this
  exact this

theorem shiftL_8 (v : Nat) : v <<< 8 = v * 256 := by
  have := Nat.shiftLeft_eq v 8
  norm_num at this
  exact this

/-- Reading back a big-endian u16 written as `(v >> 8) as u8` and `(v & 0xFF) as u8`. -/
theorem u16_roundtrip {v : Nat} (h : v < 65536) :
    (((v >>> 8) % 256) <<< 8) ||| (v &&& 0xFF) = v := by
  rw [and_255, shiftR_8, shiftL_8]
  have h1 : ((v / 256) % 256) * 256 = ((v / 256) % 256) * 2 ^ 8 := by norm_num
  have h2 : (((v / 256) % 256) * 2 ^ 8) % 2 ^ 8 = 0 := Nat.mul_mod_left _ _
  have h3 : v % 256 < 2 ^ 8 := by omega
  rw [h1, lor_eq_add h2 h3]
  omega

/-- The two u16 halves recombined: `((hi << 8) | lo)` for bytes. -/
theorem u16_combine {hi lo : Nat} (hlo : lo < 256) : (hi <<< 8) ||| lo = hi * 256 + lo := by
  rw [shiftL_8]
  have h1 : hi * 256 = hi * 2 ^ 8 := by norm_num
  have h2 : (hi * 2 ^ 8) % 2 ^ 8 = 0 := Nat.mul_mod_left _ _
  rw [h1, lor_eq_add h2 (by omega)]

/-! ### C7: the single-byte and range bounds checks differ by one -/

/-- C7: `get` at position `pos` succeeds iff `pos < 512` (so the final byte,
position 511, is readable), while `get_range` fails iff `start + len ≥ 512`,
so a range ending exactly at the buffer end (`start + len = 512`) fails even
though each of its bytes is individually readable by `get`. -/
theorem get_vs_get_range_boundary :
    (∀ (s : BytePacketBuffer) (pos : Nat), (s.get pos).isOk = true ↔ pos < 512) ∧
    (∀ (s : BytePacketBuffer) (start len : Nat),
      (s.get_range start len).isOk = true ↔ start + len < 512) ∧
    (∀ (s : BytePacketBuffer) (start len : Nat), start + len = 512 →
      (s.get_range start len).isOk = false ∧
      ∀ i, i < len → (s.get (start + i)).isOk = true) := by
  refine ⟨fun s pos => ?_, fun s start len => ?_, fun s start len h => ⟨?_, fun i hi => ?_⟩⟩
  · unfold BytePacketBuffer.get
    split <;> simp [Res.isOk] <;> omega
  · unfold BytePacketBuffer.get_range
    split <;> simp [Res.isOk] <;> omega
  · unfold BytePacketBuffer.get_range
    split
    · simp [Res.isOk]
    · omega
  · unfold BytePacketBuffer.get
    split
    · omega
    · simp [Res.isOk]

/-- Witness for C7 at a concrete boundary-exact range. -/
theorem get_vs_get_range_boundary_witness :
    (500 : Nat) + 12 = 512 ∧
    (BytePacketBuffer.new.get_range 500 12).isOk = false ∧
    ∀ i, i < 12 → (BytePacketBuffer.new.get (500 + i)).isOk = true :=
  ⟨rfl, get_vs_get_range_boundary.2.2 BytePacketBuffer.new 500 12 rfl⟩

/-! ### C2: cursor bounds -/

/-- A 512-byte buffer holding, from position 0: an empty name, query type 2
(unknown), class 0, TTL 0, and declared payload length 0x0200 = 512. -/
def unknownRecBuf : BytePacketBuffer :=
  ⟨[0, 0, 2, 0, 0, 0, 0, 0, 0, 2, 0] ++ List.replicate 501 0, 0⟩

/-- C2 counterexample: decoding an unknown-type record whose declared payload
length carries the cursor past position 512 SUCCEEDS (because `step` performs
no bounds check), leaving the shared cursor at 523 > 512 — refuting the claim
that no operation moving the cursor past capacity succeeds. -/
theorem unchecked_step_counterexample :
    DnsRecord.read unknownRecBuf =
      .ok (.UNKNOWN [] 2 512 0, ⟨unknownRecBuf.buf, 523⟩) ∧ 512 < 523 := by
  constructor
  · decide
  · omega

/-- C2 amended: the byte-accessing operations (`read`, `write`, `get`,
`get_range`) fail rather than touch bytes past capacity — a successful `read`
or `write` leaves the cursor within `[0, 512]` — but `step` (and `seek`) move
the cursor without any check, so decoding an unknown-type record with a large
declared payload length succeeds and leaves the cursor beyond 512. -/
theorem cursor_bounds_amended :
    (∀ (s : BytePacketBuffer) (v : Nat) (s' : BytePacketBuffer),
      s.write v = .ok s' → s.pos < 512 ∧ s'.pos = s.pos + 1 ∧ s'.pos ≤ 512) ∧
    (∀ (s : BytePacketBuffer) (b : Nat) (s' : BytePacketBuffer),
      s.read = .ok (b, s') → s.pos < 512 ∧ s'.pos = s.pos + 1 ∧ s'.pos ≤ 512) ∧
    (∀ (s : BytePacketBuffer) (n : Nat), s.step n = .ok { s with pos := s.pos + n }) ∧
    (DnsRecord.read unknownRecBuf = .ok (.UNKNOWN [] 2 512 0, ⟨unknownRecBuf.buf, 523⟩)) := by
  refine ⟨fun s v s' h => ?_, fun s b s' h => ?_, fun s n => rfl, by decide⟩
  · unfold BytePacketBuffer.write at h
    split at h
    · cases h
    · cases h; simp; omega
  · unfold BytePacketBuffer.read at h
    split at h
    · cases h
    · cases h; simp; omega

/-- Witness for the amended C2 at concrete inputs. -/
theorem cursor_bounds_amended_witness :
    (0 : Nat) < 512 ∧ (1 : Nat) = 0 + 1 ∧ (1 : Nat) ≤ 512 := by
  have h := cursor_bounds_amended.1 BytePacketBuffer.new 7
    ⟨(List.replicate 512 0).set 0 7, 1⟩ (by decide)
  exact ⟨h.1, h.2.1, h.2.2⟩

/-! ### C10: the empty name -/

/-- One step of `read_qname` at a 0-length byte with the jumped flag unset:
consume the terminator and seek past it. -/
theorem readQnameAux_term (fuel : Nat) (s : BytePacketBuffer) (pos jumps : Nat)
    (delim out : List Nat) (h : pos < 512) (hz : s.buf.getD pos 0 = 0) (hj : ¬ 5 < jumps) :
    readQnameAux (fuel + 1) s pos false jumps delim out = .ok ({ s with pos := pos + 1 }, out) := by
  simp only [readQnameAux, BytePacketBuffer.get, BytePacketBuffer.seek, hz]
  rw [if_neg hj, if_neg (by omega)]
  simp

/-- Reading a name whose first byte is the 0 terminator: consumes exactly one
byte and yields the empty name. -/
theorem readQname_terminator (t : BytePacketBuffer) (h : t.pos < 512)
    (hz : t.buf.getD t.pos 0 = 0) :
    t.readQname = .ok ({ t with pos := t.pos + 1 }, []) := by
  unfold BytePacketBuffer.readQname
  rw [show qnameFuel = 4095 + 1 from rfl]
  exact readQnameAux_term 4095 t t.pos 0 [] [] h hz (by omega)

/-- C10: encoding the empty name writes exactly two zero bytes (a zero length
byte for the single empty label, then the terminator), advancing the cursor by
2; decoding those bytes consumes only one byte, yielding the empty name with
the cursor one byte short of the encoded form. -/
theorem empty_name_write_read (s : BytePacketBuffer) (hlen : s.buf.length = 512)
    (hpos : s.pos + 1 < 512) :
    ∃ s', s.write_qname [] = .ok s' ∧ s'.pos = s.pos + 2 ∧
      s'.buf.getD s.pos 0 = 0 ∧ s'.buf.getD (s.pos + 1) 0 = 0 ∧
      BytePacketBuffer.readQname ⟨s'.buf, s.pos⟩ = .ok (⟨s'.buf, s.pos + 1⟩, []) := by
  refine ⟨⟨(s.buf.set s.pos 0).set (s.pos + 1) 0, s.pos + 2⟩, ?_, rfl, ?_, ?_, ?_⟩
  · unfold BytePacketBuffer.write_qname splitOnDot writeLabels writeBytes
    simp only [BytePacketBuffer.write_u8, BytePacketBuffer.write]
    rw [if_neg (by simp), if_neg (by omega)]
    simp only [writeLabels]
    rw [if_neg (by simp; omega)]
    simp
  · rw [getD_set_ne (by omega), getD_set_self (by omega)]
  · rw [getD_set_self (by simp; omega)]
  · apply readQname_terminator ⟨(s.buf.set s.pos 0).set (s.pos + 1) 0, s.pos⟩
      (show s.pos < 512 by omega)
    show ((s.buf.set s.pos 0).set (s.pos + 1) 0).getD s.pos 0 = 0
    rw [getD_set_ne (by omega), getD_set_self (by omega)]

/-- Witness for C10 on the fresh buffer. -/
theorem empty_name_write_read_witness :
    BytePacketBuffer.new.buf.length = 512 ∧ BytePacketBuffer.new.pos + 1 < 512 ∧
    ∃ s', BytePacketBuffer.new.write_qname [] = .ok s' ∧ s'.pos = 0 + 2 ∧
      s'.buf.getD 0 0 = 0 ∧ s'.buf.getD (0 + 1) 0 = 0 ∧
      BytePacketBuffer.readQname ⟨s'.buf, 0⟩ = .ok (⟨s'.buf, 0 + 1⟩, []) :=
  ⟨by decide, by decide, empty_name_write_read BytePacketBuffer.new (by decide) (by decide)⟩

/-! ### C4: termination — the fuel never runs out -/

/-- Key measure argument: the `read_qname` loop runs out of neither jumps nor
buffer — with fuel exceeding `(6 - jumps) * 512 + (512 - pos)` the fuel is
never exhausted (each non-jump iteration strictly advances the local position
below 512; each jump consumes one of the at most 6 allowed jumps). -/
theorem readQnameAux_ne_outOfFuel :
    ∀ (fuel : Nat) (s : BytePacketBuffer) (pos : Nat) (jumped : Bool) (jumps : Nat)
      (delim out : List Nat),
    (6 - jumps) * 512 + (512 - pos) < fuel →
    readQnameAux fuel s pos jumped jumps delim out ≠ .err .outOfFuel := by
  intro fuel
  induction fuel with
  | zero => intro _ _ _ _ _ _ h; omega
  | succ fuel ih =>
    intro s pos jumped jumps delim out h
    by_cases hj : 5 < jumps
    · simp [readQnameAux, hj]
    · by_cases h512 : 512 ≤ pos
      · have hget : s.get pos = .err .bufferOverrun := by
          unfold BytePacketBuffer.get; rw [if_pos h512]
        simp [readQnameAux, hj, hget]
      · set len := s.buf.getD pos 0 with hlen
        have hget : s.get pos = .ok len := by
          unfold BytePacketBuffer.get; rw [if_neg h512]
        by_cases hptr : len &&& 0xC0 = 0xC0
        · by_cases h513 : 512 ≤ pos + 1
          · have hget2 : ∀ t : BytePacketBuffer, t.get (pos + 1) = .err .bufferOverrun :=
              fun t => by unfold BytePacketBuffer.get; rw [if_pos h513]
            cases jumped <;>
              simp [readQnameAux, hj, hget, hptr, hget2, BytePacketBuffer.seek]
          · have hget2 : ∀ t : BytePacketBuffer, t.get (pos + 1) = .ok (t.buf.getD (pos + 1) 0) :=
              fun t => by unfold BytePacketBuffer.get; rw [if_neg h513]
            cases jumped
            · simp only [readQnameAux, if_neg hj, hget, hptr, if_true, ite_true, ite_false,
                Bool.not_false, BytePacketBuffer.seek, hget2, eq_self_iff_true]
              apply ih
              omega
            · simp only [readQnameAux, if_neg hj, hget, hptr, if_true, ite_true, ite_false,
                Bool.not_true, BytePacketBuffer.seek, hget2, eq_self_iff_true]
              apply ih
              omega
        · by_cases hz : len = 0
          · cases jumped <;>
              simp [readQnameAux, hj, hget, hptr, hz, BytePacketBuffer.seek]
          · by_cases hr : 512 ≤ pos + 1 + len
            · have hgr : s.get_range (pos + 1) len = .err .bufferOverrun := by
                unfold BytePacketBuffer.get_range; rw [if_pos (by omega)]
              simp [readQnameAux, hj, hget, hptr, hz, hgr]
            · have hgr : s.get_range (pos + 1) len =
                  .ok ((s.buf.drop (pos + 1)).take len) := by
                unfold BytePacketBuffer.get_range; rw [if_neg (by omega)]
              simp only [readQnameAux, if_neg hj, hget, hptr, hz, hgr, ite_false, if_false]
              apply ih
              omega

theorem readQname_ne_outOfFuel (s : BytePacketBuffer) : s.readQname ≠ .err .outOfFuel := by
  apply readQnameAux_ne_outOfFuel
  show _ < 4096
  omega

theorem read_ne_outOfFuel (s : BytePacketBuffer) : s.read ≠ .err .outOfFuel := by
  unfold BytePacketBuffer.read
  split <;> simp

theorem read_u16_ne_outOfFuel (s : BytePacketBuffer) : s.read_u16 ≠ .err .outOfFuel := by
  unfold BytePacketBuffer.read_u16
  cases h1 : s.read with
  | err e => have := read_ne_outOfFuel s; simp_all
  | ok v =>
    cases v with
    | mk b1 s1 =>
      cases h2 : s1.read with
      | err e => have := read_ne_outOfFuel s1; simp_all
      | ok v2 => obtain ⟨b2, s2⟩ := v2; simp [h2]

theorem read_u32_ne_outOfFuel (s : BytePacketBuffer) : s.read_u32 ≠ .err .outOfFuel := by
  unfold BytePacketBuffer.read_u32
  cases h1 : s.read with
  | err e => have := read_ne_outOfFuel s; simp_all
  | ok v =>
    obtain ⟨b1, s1⟩ := v
    cases h2 : s1.read with
    | err e => have := read_ne_outOfFuel s1; simp_all
    | ok v2 =>
      obtain ⟨b2, s2⟩ := v2
      cases h3 : s2.read with
      | err e => have := read_ne_outOfFuel s2; simp_all
      | ok v3 =>
        obtain ⟨b3, s3⟩ := v3
        cases h4 : s3.read with
        | err e => have := read_ne_outOfFuel s3; simp_all
        | ok v4 => obtain ⟨b4, s4⟩ := v4; simp [h2, h3, h4]

theorem header_read_ne_outOfFuel (s : BytePacketBuffer) :
    DnsHeader.read s ≠ .err .outOfFuel := by
  unfold DnsHeader.read
  cases h1 : s.read_u16 with
  | err e => have := read_u16_ne_outOfFuel s; simp_all
  | ok v =>
    obtain ⟨x1, s1⟩ := v
    cases h2 : s1.read_u16 with
    | err e => have := read_u16_ne_outOfFuel s1; simp_all
    | ok v2 =>
      obtain ⟨x2, s2⟩ := v2
      cases h3 : s2.read_u16 with
      | err e => have := read_u16_ne_outOfFuel s2; simp_all
      | ok v3 =>
        obtain ⟨x3, s3⟩ := v3
        cases h4 : s3.read_u16 with
        | err e => have := read_u16_ne_outOfFuel s3; simp_all
        | ok v4 =>
          obtain ⟨x4, s4⟩ := v4
          cases h5 : s4.read_u16 with
          | err e => have := read_u16_ne_outOfFuel s4; simp_all
          | ok v5 =>
            obtain ⟨x5, s5⟩ := v5
            cases h6 : s5.read_u16 with
            | err e => have := read_u16_ne_outOfFuel s5; simp_all
            | ok v6 => obtain ⟨x6, s6⟩ := v6; simp [h2, h3, h4, h5, h6]

theorem question_read_ne_outOfFuel (s : BytePacketBuffer) :
    DnsQuestion.read s ≠ .err .outOfFuel := by
  unfold DnsQuestion.read
  cases h1 : s.readQname with
  | err e => have := readQname_ne_outOfFuel s; simp_all
  | ok v =>
    obtain ⟨s1, name⟩ := v
    cases h2 : s1.read_u16 with
    | err e => have := read_u16_ne_outOfFuel s1; simp_all
    | ok v2 =>
      obtain ⟨qt, s2⟩ := v2
      cases h3 : s2.read_u16 with
      | err e => have := read_u16_ne_outOfFuel s2; simp_all
      | ok v3 => obtain ⟨c, s3⟩ := v3; simp [h2, h3]

theorem record_read_ne_outOfFuel (s : BytePacketBuffer) :
    DnsRecord.read s ≠ .err .outOfFuel := by
  unfold DnsRecord.read
  cases h1 : s.readQname with
  | err e => have := readQname_ne_outOfFuel s; simp_all
  | ok v =>
    obtain ⟨s1, domain⟩ := v
    cases h2 : s1.read_u16 with
    | err e => have := read_u16_ne_outOfFuel s1; simp_all
    | ok v2 =>
      obtain ⟨qn, s2⟩ := v2
      cases h3 : s2.read_u16 with
      | err e => have := read_u16_ne_outOfFuel s2; simp_all
      | ok v3 =>
        obtain ⟨c, s3⟩ := v3
        cases h4 : s3.read_u32 with
        | err e => have := read_u32_ne_outOfFuel s3; simp_all
        | ok v4 =>
          obtain ⟨ttl, s4⟩ := v4
          cases h5 : s4.read_u16 with
          | err e => have := read_u16_ne_outOfFuel s4; simp_all
          | ok v5 =>
            obtain ⟨dl, s5⟩ := v5
            cases hq : QueryType.ofNat qn with
            | A =>
              cases h6 : s5.read_u32 with
              | err e => have := read_u32_ne_outOfFuel s5; simp_all
              | ok v6 => obtain ⟨ra, s6⟩ := v6; simp [h2, h3, h4, h5, hq, h6]
            | UNKNOWN n => simp [h2, h3, h4, h5, hq, BytePacketBuffer.step]

theorem readQuestions_ne_outOfFuel (s : BytePacketBuffer) (n : Nat) :
    readQuestions s n ≠ .err .outOfFuel := by
  induction n generalizing s with
  | zero => simp [readQuestions]
  | succ n ih =>
    unfold readQuestions
    cases h1 : DnsQuestion.read s with
    | err e => have := question_read_ne_outOfFuel s; simp_all
    | ok v =>
      obtain ⟨q, s1⟩ := v
      cases h2 : readQuestions s1 n with
      | err e => have := ih s1; simp_all
      | ok v2 => obtain ⟨qs, s2⟩ := v2; simp [h2]

theorem readRecords_ne_outOfFuel (s : BytePacketBuffer) (n : Nat) :
    readRecords s n ≠ .err .outOfFuel := by
  induction n generalizing s with
  | zero => simp [readRecords]
  | succ n ih =>
    unfold readRecords
    cases h1 : DnsRecord.read s with
    | err e => have := record_read_ne_outOfFuel s; simp_all
    | ok v =>
      obtain ⟨r, s1⟩ := v
      cases h2 : readRecords s1 n with
      | err e => have := ih s1; simp_all
      | ok v2 => obtain ⟨rs, s2⟩ := v2; simp [h2]

/-- C4: every decode operation terminates for every buffer content and cursor:
in the fuel-based embedding of the `read_qname` loop, the canonical fuel is
never exhausted — neither `read_qname` nor a full `from_buffer` decode ever
returns the fuel-exhaustion marker, whatever the 512-byte buffer holds (the
encode side and all other operations are structurally recursive, hence total
by construction). -/
theorem decode_never_exhausts_fuel :
    (∀ s : BytePacketBuffer, s.readQname ≠ .err .outOfFuel) ∧
    (∀ s : BytePacketBuffer, DnsPacket.from_buffer s ≠ .err .outOfFuel) := by
  refine ⟨readQname_ne_outOfFuel, fun s => ?_⟩
  unfold DnsPacket.from_buffer
  cases h1 : DnsHeader.read s with
  | err e => have := header_read_ne_outOfFuel s; simp_all
  | ok v =>
    obtain ⟨hd, s1⟩ := v
    cases h2 : readQuestions s1 hd.questions with
    | err e => have := readQuestions_ne_outOfFuel s1 hd.questions; simp_all
    | ok v2 =>
      obtain ⟨qs, s2⟩ := v2
      cases h3 : readRecords s2 hd.answers with
      | err e => have := readRecords_ne_outOfFuel s2 hd.answers; simp_all
      | ok v3 =>
        obtain ⟨ans, s3⟩ := v3
        cases h4 : readRecords s3 hd.authoritative_entries with
        | err e => have := readRecords_ne_outOfFuel s3 hd.authoritative_entries; simp_all
        | ok v4 =>
          obtain ⟨au, s4⟩ := v4
          cases h5 : readRecords s4 hd.resource_entries with
          | err e => have := readRecords_ne_outOfFuel s4 hd.resource_entries; simp_all
          | ok v5 => obtain ⟨re, s5⟩ := v5; simp [h2, h3, h4, h5]

/-- Witness for C4 (the statement is a pair of negations, i.e. implications):
instantiated on the fresh buffer. -/
theorem decode_never_exhausts_fuel_witness :
    BytePacketBuffer.new.readQname ≠ .err .outOfFuel ∧
    DnsPacket.from_buffer BytePacketBuffer.new ≠ .err .outOfFuel :=
  ⟨decode_never_exhausts_fuel.1 BytePacketBuffer.new,
   decode_never_exhausts_fuel.2 BytePacketBuffer.new⟩

/-! ### C5: the shared cursor is advanced exactly once -/

/-- Specification observer for the name layout at `pos`: scan the label chain
without following jumps, returning `.inl p` when the first byte with both top
bits set (a compression pointer) sits at `p`, and `.inr t` when the
terminating zero-length label sits at `t` — mirroring the bounds checks of the
`read_qname` loop. -/
def nameWalk (buf : List Nat) : Nat → Nat → Option (Nat ⊕ Nat)
  | 0, _ => none
  | fuel + 1, pos =>
    if 512 ≤ pos then none
    else
      if buf.getD pos 0 &&& 0xC0 = 0xC0 then some (.inl pos)
      else if buf.getD pos 0 = 0 then some (.inr pos)
      else if 512 ≤ pos + 1 + buf.getD pos 0 then none
      else nameWalk buf fuel (pos + 1 + buf.getD pos 0)

/-- Once the jumped flag is set, `read_qname` never touches the shared buffer
state again: on success the state is returned exactly as it was. -/
theorem readQnameAux_jumped_state :
    ∀ (fuel : Nat) (s : BytePacketBuffer) (pos jumps : Nat) (delim out : List Nat)
      (s' : BytePacketBuffer) (nm : List Nat),
    readQnameAux fuel s pos true jumps delim out = .ok (s', nm) → s' = s := by
  intro fuel
  induction fuel with
  | zero => intro s pos jumps delim out s' nm h; simp [readQnameAux] at h
  | succ fuel ih =>
    intro s pos jumps delim out s' nm h
    by_cases hj : 5 < jumps
    · simp [readQnameAux, hj] at h
    · by_cases h512 : 512 ≤ pos
      · have hget : s.get pos = .err .bufferOverrun := by
          unfold BytePacketBuffer.get; rw [if_pos h512]
        simp [readQnameAux, hj, hget] at h
      · set len := s.buf.getD pos 0 with hlen
        have hget : s.get pos = .ok len := by
          unfold BytePacketBuffer.get; rw [if_neg h512]
        by_cases hptr : len &&& 0xC0 = 0xC0
        · by_cases h513 : 512 ≤ pos + 1
          · have hget2 : ∀ t : BytePacketBuffer, t.get (pos + 1) = .err .bufferOverrun :=
              fun t => by unfold BytePacketBuffer.get; rw [if_pos h513]
            simp [readQnameAux, hj, hget, hptr, hget2] at h
          · have hget2 : ∀ t : BytePacketBuffer, t.get (pos + 1) = .ok (t.buf.getD (pos + 1) 0) :=
              fun t => by unfold BytePacketBuffer.get; rw [if_neg h513]
            simp only [readQnameAux, if_neg hj, hget, hptr, if_true, ite_true, ite_false,
              Bool.not_true, hget2, eq_self_iff_true] at h
            exact ih _ _ _ _ _ _ _ h
        · by_cases hz : len = 0
          · simp [readQnameAux, hj, hget, hptr, hz] at h
            exact h.1.symm
          · by_cases hr : 512 ≤ pos + 1 + len
            · have hgr : s.get_range (pos + 1) len = .err .bufferOverrun := by
                unfold BytePacketBuffer.get_range; rw [if_pos (by omega)]
              simp [readQnameAux, hj, hget, hptr, hz, hgr] at h
            · have hgr : s.get_range (pos + 1) len =
                  .ok ((s.buf.drop (pos + 1)).take len) := by
                unfold BytePacketBuffer.get_range; rw [if_neg (by omega)]
              simp only [readQnameAux, if_neg hj, hget, hptr, hz, hgr, ite_false,
                if_false] at h
              exact ih _ _ _ _ _ _ _ h

/-- In the not-yet-jumped phase, a successful `read_qname` ends with the
shared cursor two bytes past the first pointer if the walk finds a pointer,
and one byte past the terminator otherwise; the buffer bytes are untouched. -/
theorem readQnameAux_walk :
    ∀ (fuel : Nat) (s : BytePacketBuffer) (pos jumps : Nat) (delim out : List Nat)
      (s' : BytePacketBuffer) (nm : List Nat),
    readQnameAux fuel s pos false jumps delim out = .ok (s', nm) →
    ∃ r, nameWalk s.buf fuel pos = some r ∧
      s'.pos = (match r with | .inl p => p + 2 | .inr t => t + 1) ∧ s'.buf = s.buf := by
  intro fuel
  induction fuel with
  | zero => intro s pos jumps delim out s' nm h; simp [readQnameAux] at h
  | succ fuel ih =>
    intro s pos jumps delim out s' nm h
    by_cases hj : 5 < jumps
    · simp [readQnameAux, hj] at h
    · by_cases h512 : 512 ≤ pos
      · have hget : s.get pos = .err .bufferOverrun := by
          unfold BytePacketBuffer.get; rw [if_pos h512]
        simp [readQnameAux, hj, hget] at h
      · set len := s.buf.getD pos 0 with hlen
        have hget : s.get pos = .ok len := by
          unfold BytePacketBuffer.get; rw [if_neg h512]
        by_cases hptr : len &&& 0xC0 = 0xC0
        · by_cases h513 : 512 ≤ pos + 1
          · have hget2 : ∀ t : BytePacketBuffer, t.get (pos + 1) = .err .bufferOverrun :=
              fun t => by unfold BytePacketBuffer.get; rw [if_pos h513]
            simp [readQnameAux, hj, hget, hptr, hget2, BytePacketBuffer.seek] at h
          · have hget2 : ∀ t : BytePacketBuffer, t.get (pos + 1) = .ok (t.buf.getD (pos + 1) 0) :=
              fun t => by unfold BytePacketBuffer.get; rw [if_neg h513]
            simp only [readQnameAux, if_neg hj, hget, hptr, if_true, ite_true, ite_false,
              Bool.not_false, BytePacketBuffer.seek, hget2, eq_self_iff_true] at h
            have hs1 := readQnameAux_jumped_state fuel _ _ _ _ _ _ _ h
            refine ⟨.inl pos, ?_, ?_, ?_⟩
            · unfold nameWalk
              rw [if_neg h512, if_pos (by rw [← hlen]; exact hptr)]
            · rw [hs1]
            · rw [hs1]
        · by_cases hz : len = 0
          · simp [readQnameAux, hj, hget, hptr, hz, BytePacketBuffer.seek] at h
            refine ⟨.inr pos, ?_, ?_, ?_⟩
            · unfold nameWalk
              rw [if_neg h512, if_neg (by rw [← hlen]; exact hptr),
                if_pos (by rw [← hlen]; exact hz)]
            · rw [← h.1]
            · rw [← h.1]
          · by_cases hr : 512 ≤ pos + 1 + len
            · have hgr : s.get_range (pos + 1) len = .err .bufferOverrun := by
                unfold BytePacketBuffer.get_range; rw [if_pos (by omega)]
              simp [readQnameAux, hj, hget, hptr, hz, hgr] at h
            · have hgr : s.get_range (pos + 1) len =
                  .ok ((s.buf.drop (pos + 1)).take len) := by
                unfold BytePacketBuffer.get_range; rw [if_neg (by omega)]
              simp only [readQnameAux, if_neg hj, hget, hptr, hz, hgr, ite_false,
                if_false] at h
              obtain ⟨r, hw, hpos', hbuf'⟩ := ih _ _ _ _ _ _ _ h
              refine ⟨r, ?_, hpos', hbuf'⟩
              unfold nameWalk
              rw [if_neg h512, if_neg (by rw [← hlen]; exact hptr),
                if_neg (by rw [← hlen]; exact hz), if_neg (by rw [← hlen]; exact hr)]
              exact hw

/-- C5: for every buffer on which `read_qname` succeeds, if a compression
pointer is encountered (the label walk from the start position meets a
pointer byte at `p` before any terminator) the shared cursor ends exactly at
`p + 2` — advanced once, at the first pointer, and never moved by later
chained jumps — and if no pointer is encountered the cursor ends one byte
past the terminating zero-length label at `t`. -/
theorem readQname_cursor_frame (s s' : BytePacketBuffer) (nm : List Nat)
    (h : s.readQname = .ok (s', nm)) :
    (∀ p, nameWalk s.buf qnameFuel s.pos = some (.inl p) → s'.pos = p + 2) ∧
    (∀ t, nameWalk s.buf qnameFuel s.pos = some (.inr t) → s'.pos = t + 1) := by
  obtain ⟨r, hw, hpos, _⟩ := readQnameAux_walk qnameFuel s s.pos 0 [] [] s' nm h
  constructor
  · intro p hp
    rw [hw] at hp
    cases hp
    exact hpos
  · intro t ht
    rw [hw] at ht
    cases ht
    exact hpos

/-- A 512-byte buffer with the name "ab" at position 0 and, at position 8, a
compression pointer to it. -/
def ptrNameBuf : BytePacketBuffer :=
  ⟨[2, 97, 98, 0, 0, 0, 0, 0, 0xC0, 0] ++ List.replicate 502 0, 8⟩

/-- Witness for C5: reading the name at position 8 (a pointer to position 0)
ends with the shared cursor at 10 = 8 + 2; reading the plain name at
position 0 ends at 4 = terminator position 3 + 1. -/
theorem readQname_cursor_frame_witness :
    (∃ s' nm, ptrNameBuf.readQname = .ok (s', nm) ∧ s'.pos = 8 + 2) ∧
    (∃ s' nm, BytePacketBuffer.readQname ⟨ptrNameBuf.buf, 0⟩ = .ok (s', nm) ∧ s'.pos = 3 + 1) := by
  constructor
  · refine ⟨⟨ptrNameBuf.buf, 10⟩, [97, 98], by decide, ?_⟩
    exact (readQname_cursor_frame ptrNameBuf ⟨ptrNameBuf.buf, 10⟩ [97, 98] (by decide)).1
      8 (by decide)
  · refine ⟨⟨ptrNameBuf.buf, 4⟩, [97, 98], by decide, ?_⟩
    exact (readQname_cursor_frame ⟨ptrNameBuf.buf, 0⟩ ⟨ptrNameBuf.buf, 4⟩ [97, 98] (by decide)).2
      3 (by decide)

/-! ### C3: the jump bound -/

/-- The 14-bit target offset of the compression pointer at `p`:
`((len ^ 0xC0) << 8) | b2`. -/
def ptrTarget (buf : List Nat) (p : Nat) : Nat :=
  ((buf.getD p 0 ^^^ 0xC0) <<< 8) ||| buf.getD (p + 1) 0

/-- `ptrChainB buf p k`: starting at `p` there are `k` consecutive compression
pointers, each (with its second byte) inside the buffer, each hop following
the pointer's 14-bit target. -/
def ptrChainB (buf : List Nat) : Nat → Nat → Bool
  | _, 0 => true
  | p, k + 1 =>
    decide (p + 1 < 512) && decide (buf.getD p 0 &&& 0xC0 = 0xC0) &&
      ptrChainB buf (ptrTarget buf p) k

/-- The position reached after following `k` pointer hops from `p`. -/
def chainDest (buf : List Nat) : Nat → Nat → Nat
  | p, 0 => p
  | p, k + 1 => chainDest buf (ptrTarget buf p) k

/-- After `k` more pointers with `jumps + k = 6`, `read_qname` hits the jump
bound (`jumps_performed > max_jumps`) and fails with the compression-loop
error. -/
theorem readQnameAux_chain_err :
    ∀ (k fuel : Nat) (s : BytePacketBuffer) (pos jumps : Nat) (jumped : Bool)
      (delim out : List Nat),
    ptrChainB s.buf pos k = true → jumps + k = 6 → k < fuel →
    readQnameAux fuel s pos jumped jumps delim out = .err .compressionLoop := by
  intro k
  induction k with
  | zero =>
    intro fuel s pos jumps jumped delim out _ hsum hfuel
    obtain ⟨fuel, rfl⟩ : ∃ f, fuel = f + 1 := ⟨fuel - 1, by omega⟩
    have hj : 5 < jumps := by omega
    simp [readQnameAux, hj]
  | succ k ih =>
    intro fuel s pos jumps jumped delim out hchain hsum hfuel
    obtain ⟨fuel, rfl⟩ : ∃ f, fuel = f + 1 := ⟨fuel - 1, by omega⟩
    have hch := hchain
    unfold ptrChainB at hch
    rw [Bool.and_eq_true, Bool.and_eq_true] at hch
    obtain ⟨⟨hb1, hb2⟩, hrest⟩ := hch
    have hlt : pos + 1 < 512 := of_decide_eq_true hb1
    have hptr : s.buf.getD pos 0 &&& 0xC0 = 0xC0 := of_decide_eq_true hb2
    have hj : ¬ 5 < jumps := by omega
    have hget : s.get pos = .ok (s.buf.getD pos 0) := by
      unfold BytePacketBuffer.get; rw [if_neg (by omega)]
    have hget2 : ∀ t : BytePacketBuffer, t.get (pos + 1) = .ok (t.buf.getD (pos + 1) 0) :=
      fun t => by unfold BytePacketBuffer.get; rw [if_neg (by omega)]
    cases jumped
    · simp only [readQnameAux, if_neg hj, hget, hptr, if_true, ite_true, ite_false,
        Bool.not_false, BytePacketBuffer.seek, hget2, eq_self_iff_true]
      exact ih fuel _ _ _ _ _ _ hrest (by omega) (by omega)
    · simp only [readQnameAux, if_neg hj, hget, hptr, if_true, ite_true, ite_false,
        Bool.not_true, BytePacketBuffer.seek, hget2, eq_self_iff_true]
      exact ih fuel _ _ _ _ _ _ hrest (by omega) (by omega)

/-- After `k ≤ 5 - jumps` pointers ending at an in-bounds terminating zero
byte, `read_qname` succeeds: the bound is not hit. -/
theorem readQnameAux_chain_ok :
    ∀ (k fuel : Nat) (s : BytePacketBuffer) (pos jumps : Nat) (jumped : Bool)
      (delim out : List Nat),
    ptrChainB s.buf pos k = true → jumps + k ≤ 5 → k < fuel →
    chainDest s.buf pos k < 512 → s.buf.getD (chainDest s.buf pos k) 0 = 0 →
    ∃ s', readQnameAux fuel s pos jumped jumps delim out = .ok (s', out) := by
  intro k
  induction k with
  | zero =>
    intro fuel s pos jumps jumped delim out _ hsum hfuel hdest hzero
    obtain ⟨fuel, rfl⟩ : ∃ f, fuel = f + 1 := ⟨fuel - 1, by omega⟩
    have hdp : pos < 512 := by simpa [chainDest] using hdest
    have hz : s.buf.getD pos 0 = 0 := by simpa [chainDest] using hzero
    have hj : ¬ 5 < jumps := by omega
    have hget : s.get pos = .ok (s.buf.getD pos 0) := by
      unfold BytePacketBuffer.get; rw [if_neg (by omega)]
    cases jumped
    · exact ⟨{ s with pos := pos + 1 }, by
        simp only [List.getD_eq_getElem?_getD] at hz
        simp [readQnameAux, hj, hget, hz, BytePacketBuffer.seek]⟩
    · exact ⟨s, by
        simp only [List.getD_eq_getElem?_getD] at hz
        simp [readQnameAux, hj, hget, hz]⟩
  | succ k ih =>
    intro fuel s pos jumps jumped delim out hchain hsum hfuel hdest hzero
    obtain ⟨fuel, rfl⟩ : ∃ f, fuel = f + 1 := ⟨fuel - 1, by omega⟩
    have hch := hchain
    unfold ptrChainB at hch
    rw [Bool.and_eq_true, Bool.and_eq_true] at hch
    obtain ⟨⟨hb1, hb2⟩, hrest⟩ := hch
    have hlt : pos + 1 < 512 := of_decide_eq_true hb1
    have hptr : s.buf.getD pos 0 &&& 0xC0 = 0xC0 := of_decide_eq_true hb2
    have hj : ¬ 5 < jumps := by omega
    have hget : s.get pos = .ok (s.buf.getD pos 0) := by
      unfold BytePacketBuffer.get; rw [if_neg (by omega)]
    have hget2 : ∀ t : BytePacketBuffer, t.get (pos + 1) = .ok (t.buf.getD (pos + 1) 0) :=
      fun t => by unfold BytePacketBuffer.get; rw [if_neg (by omega)]
    have hdest' : chainDest s.buf (ptrTarget s.buf pos) k < 512 := by
      simpa [chainDest] using hdest
    have hzero' : s.buf.getD (chainDest s.buf (ptrTarget s.buf pos) k) 0 = 0 := by
      simpa [chainDest] using hzero
    cases jumped
    · obtain ⟨s', hs'⟩ := ih fuel { s with pos := pos + 2 } (ptrTarget s.buf pos)
        (jumps + 1) true delim out hrest (by omega) (by omega) hdest' hzero'
      refine ⟨s', ?_⟩
      simp only [readQnameAux, if_neg hj, hget, hptr, if_true, ite_true, ite_false,
        Bool.not_false, BytePacketBuffer.seek, hget2, eq_self_iff_true]
      exact hs'
    · obtain ⟨s', hs'⟩ := ih fuel s (ptrTarget s.buf pos)
        (jumps + 1) true delim out hrest (by omega) (by omega) hdest' hzero'
      refine ⟨s', ?_⟩
      simp only [readQnameAux, if_neg hj, hget, hptr, if_true, ite_true, ite_false,
        Bool.not_true, BytePacketBuffer.seek, hget2, eq_self_iff_true]
      exact hs'

/-- C3: a chain of 6 pointers (more than the `max_jumps = 5` bound) makes
`read_qname` fail with the compression-loop error — it can neither loop
forever (see the termination theorem) nor overrun — while a chain of at most
5 pointers leading to a terminating zero byte is followed to success without
this error. -/
theorem compression_loop_bound :
    (∀ s : BytePacketBuffer, ptrChainB s.buf s.pos 6 = true →
      s.readQname = .err .compressionLoop) ∧
    (∀ (s : BytePacketBuffer) (k : Nat), k ≤ 5 → ptrChainB s.buf s.pos k = true →
      chainDest s.buf s.pos k < 512 → s.buf.getD (chainDest s.buf s.pos k) 0 = 0 →
      ∃ s', s.readQname = .ok (s', [])) := by
  constructor
  · intro s hchain
    exact readQnameAux_chain_err 6 qnameFuel s s.pos 0 false [] [] hchain rfl (by decide)
  · intro s k hk hchain hdest hzero
    exact readQnameAux_chain_ok k qnameFuel s s.pos 0 false [] [] hchain (by omega)
      (by have : (4096 : Nat) = qnameFuel := rfl; omega) hdest hzero

/-- A buffer with six chained pointers at positions 0,2,4,6,8,10 and a
terminator at 12. -/
def chainBuf : BytePacketBuffer :=
  ⟨[0xC0, 2, 0xC0, 4, 0xC0, 6, 0xC0, 8, 0xC0, 10, 0xC0, 12, 0] ++ List.replicate 499 0, 0⟩

/-- Witness for C3: from position 0 the six-pointer chain fails with the
compression-loop error; from position 2 the five-pointer chain to the
terminator at 12 succeeds. -/
theorem compression_loop_bound_witness :
    chainBuf.readQname = .err .compressionLoop ∧
    ∃ s', BytePacketBuffer.readQname ⟨chainBuf.buf, 2⟩ = .ok (s', []) := by
  constructor
  · exact compression_loop_bound.1 chainBuf (by decide)
  · exact compression_loop_bound.2 ⟨chainBuf.buf, 2⟩ 5 (by decide) (by decide)
      (by decide) (by decide)

/-! ### C6: over-declared section counts -/

/-- `getD` of a list of zeros is zero. -/
theorem getD_replicate_zero : ∀ (k i : Nat), (List.replicate k (0 : Nat)).getD i 0 = 0 := by
  intro k
  induction k with
  | zero => intro i; simp
  | succ k ih =>
    intro i
    cases i with
    | zero => simp [List.replicate]
    | succ i => simp only [List.replicate, List.getD_cons_succ]; exact ih i

/-- An all-zero 512-byte buffer whose header declares `n` questions
(header bytes 4 and 5 are the big-endian count). -/
def zeroPadBuf (n : Nat) : BytePacketBuffer :=
  ⟨[0, 0, 0, 0, n / 256, n % 256, 0, 0, 0, 0, 0, 0] ++ List.replicate 500 0, 0⟩

theorem zeroPadBuf_getD (n i : Nat) :
    (zeroPadBuf n).buf.getD i 0 =
      if i = 4 then n / 256 else if i = 5 then n % 256 else 0 := by
  unfold zeroPadBuf
  simp only [List.cons_append, List.nil_append]
  rcases i with _|_|_|_|_|_|_|_|_|_|_|_|i <;>
    simp only [List.getD_cons_zero, List.getD_cons_succ]
  case _ => rfl
  case _ => rfl
  case _ => rfl
  case _ => rfl
  case _ => rfl
  case _ => rfl
  case _ => rfl
  case _ => rfl
  case _ => rfl
  case _ => rfl
  case _ => rfl
  case _ => rfl
  case _ =>
    rw [if_neg (by omega), if_neg (by omega)]
    exact getD_replicate_zero 500 i

/-- `readQname_terminator` restated on an explicit state. -/
theorem readQname_zero (buf : List Nat) (p : Nat) (h : p < 512)
    (h0 : buf.getD p 0 = 0) :
    BytePacketBuffer.readQname ⟨buf, p⟩ = .ok (⟨buf, p + 1⟩, []) :=
  readQname_terminator ⟨buf, p⟩ h h0

/-- `read_u16` on two explicit bytes. -/
theorem read_u16_bytes (buf : List Nat) (q : Nat) (h : q + 1 < 512) :
    BytePacketBuffer.read_u16 ⟨buf, q⟩ =
      .ok ((buf.getD q 0 <<< 8) ||| buf.getD (q + 1) 0, ⟨buf, q + 2⟩) := by
  unfold BytePacketBuffer.read_u16 BytePacketBuffer.read
  rw [if_neg (by simp; omega)]
  simp only []
  rw [if_neg (by simp; omega)]

/-- `read_u16` over two zero bytes. -/
theorem read_u16_zeros (buf : List Nat) (q : Nat) (h : q + 1 < 512)
    (h0 : buf.getD q 0 = 0) (h1 : buf.getD (q + 1) 0 = 0) :
    BytePacketBuffer.read_u16 ⟨buf, q⟩ = .ok (0, ⟨buf, q + 2⟩) := by
  rw [read_u16_bytes buf q h, h0, h1]
  simp

/-- A question decoded from zeroed bytes: empty name, type `UNKNOWN 0`,
consuming exactly 5 bytes. -/
theorem question_read_zeros (buf : List Nat) (p : Nat) (h : p + 4 < 512)
    (hb : ∀ i, p ≤ i → buf.getD i 0 = 0) :
    DnsQuestion.read ⟨buf, p⟩ = .ok (⟨[], .UNKNOWN 0⟩, ⟨buf, p + 5⟩) := by
  unfold DnsQuestion.read
  simp only [readQname_zero buf p (by omega) (hb p le_rfl),
    read_u16_zeros buf (p + 1) (by omega) (hb _ (by omega)) (hb _ (by omega)),
    read_u16_zeros buf (p + 1 + 2) (by omega) (hb _ (by omega)) (hb _ (by omega))]
  rfl

/-- Parsing `m` questions out of zeroed bytes starting at `p ≡ 2 (mod 5)`
overruns the buffer as soon as they do not all fit. -/
theorem readQuestions_zeros_overrun (buf : List Nat)
    (hb : ∀ i, 12 ≤ i → buf.getD i 0 = 0) :
    ∀ (m p : Nat), 12 ≤ p → p ≤ 512 → p % 5 = 2 → 512 < p + 5 * m →
    readQuestions ⟨buf, p⟩ m = .err .bufferOverrun := by
  intro m
  induction m with
  | zero => intro p _ _ _ h; omega
  | succ m ih =>
    intro p h12 h512 hmod hover
    by_cases hp : p = 512
    · have hq : DnsQuestion.read ⟨buf, p⟩ = .err .bufferOverrun := by
        unfold DnsQuestion.read BytePacketBuffer.readQname
        rw [show qnameFuel = 4095 + 1 from rfl]
        have hget : BytePacketBuffer.get ⟨buf, p⟩ p = .err .bufferOverrun := by
          unfold BytePacketBuffer.get; rw [if_pos (by omega)]
        simp [readQnameAux, hget]
      unfold readQuestions
      simp only [hq]
    · have hlt : p + 4 < 512 := by omega
      unfold readQuestions
      simp only [question_read_zeros buf p hlt (fun i hi => hb i (by omega)),
        ih (p + 5) (by omega) (by omega) (by omega) (by omega)]

/-- C6 counterexample: an all-zero buffer whose header declares one question
decodes SUCCESSFULLY — the zero padding parses as a question with an empty
name and type `UNKNOWN 0` — instead of failing with the buffer-overrun error
as the claim states. -/
theorem zero_padding_decodes :
    DnsPacket.from_buffer (zeroPadBuf 1) =
      .ok { header := { DnsHeader.new with questions := 1 },
            questions := [⟨[], .UNKNOWN 0⟩], answers := [], authorities := [],
            resources := [] } ∧
    DnsPacket.from_buffer (zeroPadBuf 1) ≠ .err .bufferOverrun := by
  constructor
  · decide
  · decide

/-- The big-endian u16 stored at `buf[p], buf[p+1]`, as `read_u16` assembles it. -/
def u16At (buf : List Nat) (p : Nat) : Nat :=
  (buf.getD p 0 <<< 8) ||| buf.getD (p + 1) 0

/-- Reading a header from 12 in-bounds bytes: the populated fields, expressed
from the raw bytes exactly as `DnsHeader::read` unpacks them. -/
theorem DnsHeader_read_bytes (buf : List Nat) (p : Nat) (h : p + 12 ≤ 512) :
    ∃ hd, DnsHeader.read ⟨buf, p⟩ = .ok (hd, ⟨buf, p + 12⟩) ∧
      hd.id = u16At buf p ∧
      hd.recursion_desired = decide (0 < ((u16At buf (p + 2) >>> 8) % 256) &&& 1) ∧
      hd.truncated_message = decide (0 < ((u16At buf (p + 2) >>> 8) % 256) &&& (1 <<< 1)) ∧
      hd.authoritative_answer = decide (0 < ((u16At buf (p + 2) >>> 8) % 256) &&& (1 <<< 2)) ∧
      hd.opcode = (((u16At buf (p + 2) >>> 8) % 256) >>> 3) &&& 0x0F ∧
      hd.response = decide (0 < ((u16At buf (p + 2) >>> 8) % 256) &&& (1 <<< 7)) ∧
      hd.rescode = ResultCode.fromU8 ((u16At buf (p + 2) &&& 0xFF) &&& 0x0F) ∧
      hd.checking_disabled = decide (0 < (u16At buf (p + 2) &&& 0xFF) &&& (1 <<< 4)) ∧
      hd.authed_data = decide (0 < (u16At buf (p + 2) &&& 0xFF) &&& (1 <<< 5)) ∧
      hd.z = decide (0 < (u16At buf (p + 2) &&& 0xFF) &&& (1 <<< 6)) ∧
      hd.recursion_available = decide (0 < (u16At buf (p + 2) &&& 0xFF) &&& (1 <<< 7)) ∧
      hd.questions = u16At buf (p + 4) ∧
      hd.answers = u16At buf (p + 6) ∧
      hd.authoritative_entries = u16At buf (p + 8) ∧
      hd.resource_entries = u16At buf (p + 10) := by
  unfold DnsHeader.read
  simp only [read_u16_bytes buf p (by omega),
    read_u16_bytes buf (p + 2) (by omega),
    read_u16_bytes buf (p + 2 + 2) (by omega),
    read_u16_bytes buf (p + 2 + 2 + 2) (by omega),
    read_u16_bytes buf (p + 2 + 2 + 2 + 2) (by omega),
    read_u16_bytes buf (p + 2 + 2 + 2 + 2 + 2) (by omega)]
  exact ⟨_, rfl, rfl, rfl, rfl, rfl, rfl, rfl, rfl, rfl, rfl, rfl, rfl, rfl, rfl, rfl, rfl⟩

/-- C6 amended: a buffer whose header declares more questions than fit in the
remaining bytes of the 512-byte buffer (an all-zero buffer parses one question
per 5 bytes, so more than 100 questions cannot fit) fails with the
buffer-overrun error — no partial message is returned; but counts small enough
to fit parse the zero-filled padding as empty-name questions, so decode does
NOT fail merely because the counts exceed the questions actually present. -/
theorem overdeclared_counts_overrun (n : Nat) (h100 : 100 < n) (hn : n < 65536) :
    DnsPacket.from_buffer (zeroPadBuf n) = .err .bufferOverrun := by
  have hb : ∀ i, 12 ≤ i → (zeroPadBuf n).buf.getD i 0 = 0 := by
    intro i hi
    rw [zeroPadBuf_getD]
    rw [if_neg (by omega), if_neg (by omega)]
  obtain ⟨hd, hread, hfields⟩ := DnsHeader_read_bytes (zeroPadBuf n).buf 0 (by omega)
  have hq : hd.questions = n := by
    have h4 : (zeroPadBuf n).buf.getD 4 0 = n / 256 := by
      rw [zeroPadBuf_getD]; norm_num
    have h5 : (zeroPadBuf n).buf.getD 5 0 = n % 256 := by
      rw [zeroPadBuf_getD]; norm_num
    have := hfields.2.2.2.2.2.2.2.2.2.2.2.1
    rw [this]
    unfold u16At
    rw [show (0 : Nat) + 4 + 1 = 5 from rfl, h4, h5, u16_combine (Nat.mod_lt _ (by omega))]
    omega
  have hstart : zeroPadBuf n = ⟨(zeroPadBuf n).buf, 0⟩ := rfl
  unfold DnsPacket.from_buffer
  rw [hstart]
  simp only [hread, hq,
    readQuestions_zeros_overrun (zeroPadBuf n).buf hb n (0 + 12) (by omega) (by omega)
      (by omega) (by omega)]

/-- Witness for the amended C6 at the declared count 101. -/
theorem overdeclared_counts_overrun_witness :
    DnsPacket.from_buffer (zeroPadBuf 101) = .err .bufferOverrun :=
  overdeclared_counts_overrun 101 (by omega) (by omega)

/-! ### The write half as byte sequences -/

theorem getD_append_left {l1 l2 : List Nat} {i : Nat} (h : i < l1.length) :
    (l1 ++ l2).getD i 0 = l1.getD i 0 := by
  simp [List.getD_eq_getElem?_getD, List.getElem?_append_left h]

theorem getD_append_right {l1 l2 : List Nat} {i : Nat} (h : l1.length ≤ i) :
    (l1 ++ l2).getD i 0 = l2.getD (i - l1.length) 0 := by
  simp [List.getD_eq_getElem?_getD, List.getElem?_append_right h]

/-- The two bytes `write_u16` stores. -/
def u16Bytes (v : Nat) : List Nat := [(v >>> 8) % 256, v &&& 0xFF]

/-- The four bytes `write_u32` stores. -/
def u32Bytes (v : Nat) : List Nat :=
  [(v >>> 24) &&& 0xFF, (v >>> 16) &&& 0xFF, (v >>> 8) &&& 0xFF, v &&& 0xFF]

/-- The bytes the label loop of `write_qname` stores. -/
def labelsBytes : List (List Nat) → List Nat
  | [] => []
  | l :: ls => l.length :: (l ++ labelsBytes ls)

/-- The bytes `write_qname` stores: the labels, then the 0 terminator. -/
def qnameBytes (name : List Nat) : List Nat := labelsBytes (splitOnDot name) ++ [0]

/-- The first flag byte `DnsHeader::write` packs. -/
def headerByteA (h : DnsHeader) : Nat :=
  boolNat h.recursion_desired ||| (boolNat h.truncated_message <<< 1) |||
    (boolNat h.authoritative_answer <<< 2) ||| ((h.opcode <<< 3) % 256) |||
    (boolNat h.response <<< 7)

/-- The second flag byte `DnsHeader::write` packs. -/
def headerByteB (h : DnsHeader) : Nat :=
  h.rescode.toNat ||| (boolNat h.checking_disabled <<< 4) |||
    (boolNat h.authed_data <<< 5) ||| (boolNat h.z <<< 6) |||
    (boolNat h.recursion_available <<< 7)

/-- The 12 bytes `DnsHeader::write` stores. -/
def headerBytes (h : DnsHeader) : List Nat :=
  u16Bytes h.id ++ [headerByteA h, headerByteB h] ++ u16Bytes h.questions ++
    u16Bytes h.answers ++ u16Bytes h.authoritative_entries ++
    u16Bytes h.resource_entries

/-- The bytes `DnsQuestion::write` stores. -/
def questionBytes (q : DnsQuestion) : List Nat :=
  qnameBytes q.name ++ u16Bytes q.qtype.toNat ++ u16Bytes 1

/-- The bytes `DnsRecord::write` stores: the full A-record encoding, or
nothing at all for an unknown record. -/
def recordBytes : DnsRecord → List Nat
  | .A domain addr ttl =>
    qnameBytes domain ++ u16Bytes 1 ++ u16Bytes 1 ++ u32Bytes ttl ++ u16Bytes 4 ++
      [addr.o1, addr.o2, addr.o3, addr.o4]
  | .UNKNOWN _ _ _ _ => []

/-- The bytes a question section stores. -/
def questionsBytes (qs : List DnsQuestion) : List Nat := (qs.map questionBytes).flatten

/-- The bytes a record section stores. -/
def sectionBytes (rs : List DnsRecord) : List Nat := (rs.map recordBytes).flatten

/-- The full byte image `DnsPacket::write` stores. -/
def packetBytes (p : DnsPacket) : List Nat :=
  headerBytes (fixCounts p).header ++ questionsBytes p.questions ++
    sectionBytes p.answers ++ sectionBytes p.authorities ++ sectionBytes p.resources

/-- `Wrote s s' bs`: the successful write step from `s` to `s'` appended
exactly the bytes `bs` at the cursor: the cursor advanced by `bs.length`
(staying within 512 if anything was written), those bytes are in the buffer,
and every byte outside `[s.pos, s'.pos)` is untouched. -/
def Wrote (s s' : BytePacketBuffer) (bs : List Nat) : Prop :=
  s'.pos = s.pos + bs.length ∧
  s'.buf.length = s.buf.length ∧
  (s'.pos ≤ 512 ∨ bs = []) ∧
  (∀ i, i < bs.length → s'.buf.getD (s.pos + i) 0 = bs.getD i 0) ∧
  (∀ i, i < s.pos ∨ s'.pos ≤ i → s'.buf.getD i 0 = s.buf.getD i 0)

theorem Wrote.nil (s : BytePacketBuffer) : Wrote s s [] := by
  refine ⟨by simp, rfl, .inr rfl, by simp, fun i _ => rfl⟩

theorem Wrote.append {s s' s'' : BytePacketBuffer} {b1 b2 : List Nat}
    (h1 : Wrote s s' b1) (h2 : Wrote s' s'' b2) : Wrote s s'' (b1 ++ b2) := by
  obtain ⟨hp1, hl1, hb1, hw1, ho1⟩ := h1
  obtain ⟨hp2, hl2, hb2, hw2, ho2⟩ := h2
  refine ⟨by simp [hp2, hp1]; omega, hl2.trans hl1, ?_, ?_, ?_⟩
  · rcases hb2 with h | h
    · exact .inl h
    · rcases hb1 with h' | h'
      · refine .inl ?_
        have hp : s''.pos = s'.pos := by rw [hp2, h]; simp
        omega
      · exact .inr (by rw [h, h']; rfl)
  · intro i hi
    by_cases hlt : i < b1.length
    · rw [getD_append_left hlt]
      rw [← hw1 i hlt]
      exact ho2 _ (.inl (by omega))
    · rw [getD_append_right (by omega)]
      have := hw2 (i - b1.length) (by simp at hi; omega)
      rw [← this]
      congr 1
      omega
  · intro i hi
    rw [ho2 i (by omega), ho1 i (by omega)]

theorem write_wrote {s s' : BytePacketBuffer} {v : Nat} (hlen : s.buf.length = 512)
    (h : s.write v = .ok s') : Wrote s s' [v] := by
  unfold BytePacketBuffer.write at h
  split at h
  · cases h
  · rename_i hpos
    cases h
    refine ⟨rfl, by simp, .inl (by simp; omega), ?_, ?_⟩
    · intro i hi
      have hi0 : i = 0 := by simp at hi; omega
      subst hi0
      simp only [Nat.add_zero, List.getD_cons_zero]
      exact getD_set_self (by omega)
    · intro i hi
      simp only []
      exact getD_set_ne (by simp at hi ⊢; omega)

theorem write_u8_wrote {s s' : BytePacketBuffer} {v : Nat} (hlen : s.buf.length = 512)
    (h : s.write_u8 v = .ok s') : Wrote s s' [v] :=
  write_wrote hlen h

theorem write_u16_wrote {s s' : BytePacketBuffer} {v : Nat} (hlen : s.buf.length = 512)
    (h : s.write_u16 v = .ok s') : Wrote s s' (u16Bytes v) := by
  unfold BytePacketBuffer.write_u16 at h
  cases h1 : s.write ((v >>> 8) % 256) with
  | err e => simp only [h1] at h; cases h
  | ok s1 =>
    simp only [h1] at h
    have w1 := write_wrote hlen h1
    have hlen1 : s1.buf.length = 512 := by rw [w1.2.1, hlen]
    have w2 := write_wrote hlen1 h
    exact w1.append w2

theorem write_u32_wrote {s s' : BytePacketBuffer} {v : Nat} (hlen : s.buf.length = 512)
    (h : s.write_u32 v = .ok s') : Wrote s s' (u32Bytes v) := by
  unfold BytePacketBuffer.write_u32 at h
  cases h1 : s.write ((v >>> 24) &&& 0xFF) with
  | err e => simp only [h1] at h; cases h
  | ok s1 =>
    simp only [h1] at h
    have w1 := write_wrote hlen h1
    have hl1 : s1.buf.length = 512 := by rw [w1.2.1, hlen]
    cases h2 : s1.write ((v >>> 16) &&& 0xFF) with
    | err e => simp only [h2] at h; cases h
    | ok s2 =>
      simp only [h2] at h
      have w2 := write_wrote hl1 h2
      have hl2 : s2.buf.length = 512 := by rw [w2.2.1, hl1]
      cases h3 : s2.write ((v >>> 8) &&& 0xFF) with
      | err e => simp only [h3] at h; cases h
      | ok s3 =>
        simp only [h3] at h
        have w3 := write_wrote hl2 h3
        have hl3 : s3.buf.length = 512 := by rw [w3.2.1, hl2]
        have w4 := write_wrote hl3 h
        exact w1.append (w2.append (w3.append w4))

theorem Wrote.congr {s s' : BytePacketBuffer} {bs bs' : List Nat}
    (h : Wrote s s' bs) (e : bs = bs') : Wrote s s' bs' := e ▸ h

theorem Wrote.length_eq {s s' : BytePacketBuffer} {bs : List Nat}
    (h : Wrote s s' bs) (hlen : s.buf.length = 512) : s'.buf.length = 512 := by
  rw [h.2.1, hlen]

theorem writeBytes_wrote :
    ∀ (bs : List Nat) (s s' : BytePacketBuffer), s.buf.length = 512 →
    writeBytes s bs = .ok s' → Wrote s s' bs := by
  intro bs
  induction bs with
  | nil =>
    intro s s' _ h
    cases h
    exact Wrote.nil s
  | cons b bs ih =>
    intro s s' hlen h
    unfold writeBytes at h
    cases h1 : s.write_u8 b with
    | err e => simp only [h1] at h; cases h
    | ok s1 =>
      simp only [h1] at h
      have w1 := write_u8_wrote hlen h1
      exact w1.append (ih s1 s' (w1.length_eq hlen) h)

theorem writeLabels_wrote :
    ∀ (L : List (List Nat)) (s s' : BytePacketBuffer), s.buf.length = 512 →
    writeLabels s L = .ok s' → Wrote s s' (labelsBytes L) := by
  intro L
  induction L with
  | nil =>
    intro s s' _ h
    cases h
    exact Wrote.nil s
  | cons l ls ih =>
    intro s s' hlen h
    unfold writeLabels at h
    split at h
    · cases h
    · cases h1 : s.write_u8 l.length with
      | err e => simp only [h1] at h; cases h
      | ok s1 =>
        simp only [h1] at h
        cases h2 : writeBytes s1 l with
        | err e => simp only [h2] at h; cases h
        | ok s2 =>
          simp only [h2] at h
          have w1 := write_u8_wrote hlen h1
          have w2 := writeBytes_wrote l s1 s2 (w1.length_eq hlen) h2
          have w3 := ih s2 s' (w2.length_eq (w1.length_eq hlen)) h
          exact (w1.append (w2.append w3)).congr rfl

theorem write_qname_wrote {s s' : BytePacketBuffer} {name : List Nat}
    (hlen : s.buf.length = 512) (h : s.write_qname name = .ok s') :
    Wrote s s' (qnameBytes name) := by
  unfold BytePacketBuffer.write_qname at h
  cases h1 : writeLabels s (splitOnDot name) with
  | err e => simp only [h1] at h; cases h
  | ok s1 =>
    simp only [h1] at h
    have w1 := writeLabels_wrote (splitOnDot name) s s1 hlen h1
    have w2 := write_u8_wrote (w1.length_eq hlen) h
    exact w1.append w2

theorem DnsHeader_write_wrote {h : DnsHeader} {s s' : BytePacketBuffer}
    (hlen : s.buf.length = 512) (hw : h.write s = .ok s') :
    Wrote s s' (headerBytes h) := by
  unfold DnsHeader.write at hw
  cases h1 : s.write_u16 h.id with
  | err e => simp only [h1] at hw; cases hw
  | ok s1 =>
    simp only [h1] at hw
    have w1 := write_u16_wrote hlen h1
    have hl1 := w1.length_eq hlen
    cases h2 : s1.write_u8 (headerByteA h) with
    | err e => simp only [headerByteA] at h2; simp only [h2] at hw; cases hw
    | ok s2 =>
      simp only [headerByteA] at h2
      simp only [h2] at hw
      have w2 := write_u8_wrote hl1 h2
      have hl2 := w2.length_eq hl1
      cases h3 : s2.write_u8 (headerByteB h) with
      | err e => simp only [headerByteB] at h3; simp only [h3] at hw; cases hw
      | ok s3 =>
        simp only [headerByteB] at h3
        simp only [h3] at hw
        have w3 := write_u8_wrote hl2 h3
        have hl3 := w3.length_eq hl2
        cases h4 : s3.write_u16 h.questions with
        | err e => simp only [h4] at hw; cases hw
        | ok s4 =>
          simp only [h4] at hw
          have w4 := write_u16_wrote hl3 h4
          have hl4 := w4.length_eq hl3
          cases h5 : s4.write_u16 h.answers with
          | err e => simp only [h5] at hw; cases hw
          | ok s5 =>
            simp only [h5] at hw
            have w5 := write_u16_wrote hl4 h5
            have hl5 := w5.length_eq hl4
            cases h6 : s5.write_u16 h.authoritative_entries with
            | err e => simp only [h6] at hw; cases hw
            | ok s6 =>
              simp only [h6] at hw
              have w6 := write_u16_wrote hl5 h6
              have w7 := write_u16_wrote (w6.length_eq hl5) hw
              refine (w1.append (w2.append (w3.append (w4.append
                (w5.append (w6.append w7)))))).congr ?_
              simp [headerBytes, headerByteA, headerByteB, List.append_assoc]

theorem DnsQuestion_write_wrote {q : DnsQuestion} {s s' : BytePacketBuffer}
    (hlen : s.buf.length = 512) (h : q.write s = .ok s') :
    Wrote s s' (questionBytes q) := by
  unfold DnsQuestion.write at h
  cases h1 : s.write_qname q.name with
  | err e => simp only [h1] at h; cases h
  | ok s1 =>
    simp only [h1] at h
    have w1 := write_qname_wrote hlen h1
    cases h2 : s1.write_u16 q.qtype.toNat with
    | err e => simp only [h2] at h; cases h
    | ok s2 =>
      simp only [h2] at h
      have w2 := write_u16_wrote (w1.length_eq hlen) h2
      have w3 := write_u16_wrote (w2.length_eq (w1.length_eq hlen)) h
      refine (w1.append (w2.append w3)).congr ?_
      simp [questionBytes, List.append_assoc]

theorem DnsRecord_write_wrote {r : DnsRecord} {s s' : BytePacketBuffer} {n : Nat}
    (hlen : s.buf.length = 512) (h : r.write s = .ok (n, s')) :
    Wrote s s' (recordBytes r) := by
  cases r with
  | UNKNOWN domain qt dl ttl =>
    unfold DnsRecord.write at h
    cases h
    exact Wrote.nil s
  | A domain addr ttl =>
    unfold DnsRecord.write at h
    cases h1 : s.write_qname domain with
    | err e => simp only [h1] at h; cases h
    | ok s1 =>
      simp only [h1] at h
      have w1 := write_qname_wrote hlen h1
      have hl1 := w1.length_eq hlen
      cases h2 : s1.write_u16 QueryType.A.toNat with
      | err e => simp only [h2] at h; cases h
      | ok s2 =>
        simp only [h2] at h
        have w2 := write_u16_wrote hl1 h2
        have hl2 := w2.length_eq hl1
        cases h3 : s2.write_u16 1 with
        | err e => simp only [h3] at h; cases h
        | ok s3 =>
          simp only [h3] at h
          have w3 := write_u16_wrote hl2 h3
          have hl3 := w3.length_eq hl2
          cases h4 : s3.write_u32 ttl with
          | err e => simp only [h4] at h; cases h
          | ok s4 =>
            simp only [h4] at h
            have w4 := write_u32_wrote hl3 h4
            have hl4 := w4.length_eq hl3
            cases h5 : s4.write_u16 4 with
            | err e => simp only [h5] at h; cases h
            | ok s5 =>
              simp only [h5] at h
              have w5 := write_u16_wrote hl4 h5
              have hl5 := w5.length_eq hl4
              cases h6 : s5.write_u8 addr.o1 with
              | err e => simp only [h6] at h; cases h
              | ok s6 =>
                simp only [h6] at h
                have w6 := write_u8_wrote hl5 h6
                have hl6 := w6.length_eq hl5
                cases h7 : s6.write_u8 addr.o2 with
                | err e => simp only [h7] at h; cases h
                | ok s7 =>
                  simp only [h7] at h
                  have w7 := write_u8_wrote hl6 h7
                  have hl7 := w7.length_eq hl6
                  cases h8 : s7.write_u8 addr.o3 with
                  | err e => simp only [h8] at h; cases h
                  | ok s8 =>
                    simp only [h8] at h
                    have w8 := write_u8_wrote hl7 h8
                    have hl8 := w8.length_eq hl7
                    cases h9 : s8.write_u8 addr.o4 with
                    | err e => simp only [h9] at h; cases h
                    | ok s9 =>
                      simp only [h9] at h
                      have w9 := write_u8_wrote hl8 h9
                      cases h
                      refine (w1.append (w2.append (w3.append (w4.append (w5.append
                        (w6.append (w7.append (w8.append w9)))))))).congr ?_
                      simp [recordBytes, QueryType.toNat, List.append_assoc]

theorem writeQuestionList_wrote :
    ∀ (qs : List DnsQuestion) (s s' : BytePacketBuffer), s.buf.length = 512 →
    writeQuestionList s qs = .ok s' → Wrote s s' (questionsBytes qs) := by
  intro qs
  induction qs with
  | nil =>
    intro s s' _ h
    cases h
    exact Wrote.nil s
  | cons q qs ih =>
    intro s s' hlen h
    unfold writeQuestionList at h
    cases h1 : q.write s with
    | err e => simp only [h1] at h; cases h
    | ok s1 =>
      simp only [h1] at h
      have w1 := DnsQuestion_write_wrote hlen h1
      have w2 := ih s1 s' (w1.length_eq hlen) h
      refine (w1.append w2).congr ?_
      simp [questionsBytes]

theorem writeRecordList_wrote :
    ∀ (rs : List DnsRecord) (s s' : BytePacketBuffer), s.buf.length = 512 →
    writeRecordList s rs = .ok s' → Wrote s s' (sectionBytes rs) := by
  intro rs
  induction rs with
  | nil =>
    intro s s' _ h
    cases h
    exact Wrote.nil s
  | cons r rs ih =>
    intro s s' hlen h
    unfold writeRecordList at h
    cases h1 : r.write s with
    | err e => simp only [h1] at h; cases h
    | ok v =>
      obtain ⟨n, s1⟩ := v
      simp only [h1] at h
      have w1 := DnsRecord_write_wrote hlen h1
      have w2 := ih s1 s' (w1.length_eq hlen) h
      refine (w1.append w2).congr ?_
      simp [sectionBytes]

/-- `DnsPacket::write` produces exactly `packetBytes p` at the cursor and
returns the count-fixed packet. -/
theorem DnsPacket_write_wrote {p p' : DnsPacket} {s s' : BytePacketBuffer}
    (hlen : s.buf.length = 512) (h : p.write s = .ok (p', s')) :
    p' = fixCounts p ∧ Wrote s s' (packetBytes p) := by
  unfold DnsPacket.write at h
  cases h1 : (fixCounts p).header.write s with
  | err e => simp only [h1] at h; cases h
  | ok s1 =>
    simp only [h1] at h
    have w1 := DnsHeader_write_wrote hlen h1
    have hl1 := w1.length_eq hlen
    cases h2 : writeQuestionList s1 p.questions with
    | err e => simp only [h2] at h; cases h
    | ok s2 =>
      simp only [h2] at h
      have w2 := writeQuestionList_wrote p.questions s1 s2 hl1 h2
      have hl2 := w2.length_eq hl1
      cases h3 : writeRecordList s2 p.answers with
      | err e => simp only [h3] at h; cases h
      | ok s3 =>
        simp only [h3] at h
        have w3 := writeRecordList_wrote p.answers s2 s3 hl2 h3
        have hl3 := w3.length_eq hl2
        cases h4 : writeRecordList s3 p.authorities with
        | err e => simp only [h4] at h; cases h
        | ok s4 =>
          simp only [h4] at h
          have w4 := writeRecordList_wrote p.authorities s3 s4 hl3 h4
          have hl4 := w4.length_eq hl3
          cases h5 : writeRecordList s4 p.resources with
          | err e => simp only [h5] at h; cases h
          | ok s5 =>
            simp only [h5] at h
            have w5 := writeRecordList_wrote p.resources s4 s5 hl4 h5
            cases h
            refine ⟨rfl, (w1.append (w2.append (w3.append (w4.append w5)))).congr ?_⟩
            simp [packetBytes, List.append_assoc]

/-! ### C8: header counts are recomputed on encode -/

theorem headerBytes_explicit (h : DnsHeader) :
    headerBytes h =
      [(h.id >>> 8) % 256, h.id &&& 0xFF, headerByteA h, headerByteB h,
       (h.questions >>> 8) % 256, h.questions &&& 0xFF,
       (h.answers >>> 8) % 256, h.answers &&& 0xFF,
       (h.authoritative_entries >>> 8) % 256, h.authoritative_entries &&& 0xFF,
       (h.resource_entries >>> 8) % 256, h.resource_entries &&& 0xFF] := rfl

theorem headerBytes_length (h : DnsHeader) : (headerBytes h).length = 12 := by
  rw [headerBytes_explicit]
  rfl

theorem packetBytes_getD_lt12 (p : DnsPacket) (i : Nat) (hi : i < 12) :
    (packetBytes p).getD i 0 = (headerBytes (fixCounts p).header).getD i 0 := by
  unfold packetBytes
  rw [List.append_assoc, List.append_assoc, List.append_assoc]
  exact getD_append_left (by rw [headerBytes_length]; omega)

/-- The bytes at the four header-count slots of a freshly encoded packet. -/
theorem encode_count_bytes {p p' : DnsPacket} {s' : BytePacketBuffer}
    (h : p.write BytePacketBuffer.new = .ok (p', s')) (i : Nat) (hi : i < 12) :
    s'.buf.getD i 0 = (headerBytes (fixCounts p).header).getD i 0 := by
  obtain ⟨hp', w⟩ := DnsPacket_write_wrote (by simp [BytePacketBuffer.new]) h
  have hb := w.2.2.2.1 i (by
    have : 12 ≤ (packetBytes p).length := by
      unfold packetBytes
      simp [headerBytes_length]
    omega)
  have : BytePacketBuffer.new.pos + i = i := by simp [BytePacketBuffer.new]
  rw [this] at hb
  rw [hb, packetBytes_getD_lt12 p i hi]

/-- C8 amended: the four header counts written into the encoded bytes (the
big-endian u16s at offsets 4, 6, 8 and 10) equal the actual lengths of the
question, answer, authority and additional sections reduced modulo 2^16 (the
`len as u16` cast) — exactly the lengths whenever each section holds fewer
than 65536 entries — and the same values are stored back into the returned
header; they never depend on the header count fields the caller supplied,
which do not appear in the result at all. -/
theorem encode_header_counts (p p' : DnsPacket) (s' : BytePacketBuffer)
    (h : p.write BytePacketBuffer.new = .ok (p', s')) :
    u16At s'.buf 4 = p.questions.length % 65536 ∧
    u16At s'.buf 6 = p.answers.length % 65536 ∧
    u16At s'.buf 8 = p.authorities.length % 65536 ∧
    u16At s'.buf 10 = p.resources.length % 65536 ∧
    p'.header.questions = p.questions.length % 65536 ∧
    p'.header.answers = p.answers.length % 65536 ∧
    p'.header.authoritative_entries = p.authorities.length % 65536 ∧
    p'.header.resource_entries = p.resources.length % 65536 := by
  have hp' : p' = fixCounts p :=
    (DnsPacket_write_wrote (by simp [BytePacketBuffer.new]) h).1
  refine ⟨?_, ?_, ?_, ?_, by rw [hp']; rfl, by rw [hp']; rfl, by rw [hp']; rfl,
    by rw [hp']; rfl⟩
  · unfold u16At
    rw [encode_count_bytes h 4 (by omega), encode_count_bytes h 5 (by omega),
      headerBytes_explicit]
    simp only [List.getD_cons_succ, List.getD_cons_zero]
    exact u16_roundtrip (Nat.mod_lt _ (by omega))
  · unfold u16At
    rw [encode_count_bytes h 6 (by omega), encode_count_bytes h 7 (by omega),
      headerBytes_explicit]
    simp only [List.getD_cons_succ, List.getD_cons_zero]
    exact u16_roundtrip (Nat.mod_lt _ (by omega))
  · unfold u16At
    rw [encode_count_bytes h 8 (by omega), encode_count_bytes h 9 (by omega),
      headerBytes_explicit]
    simp only [List.getD_cons_succ, List.getD_cons_zero]
    exact u16_roundtrip (Nat.mod_lt _ (by omega))
  · unfold u16At
    rw [encode_count_bytes h 10 (by omega), encode_count_bytes h 11 (by omega),
      headerBytes_explicit]
    simp only [List.getD_cons_succ, List.getD_cons_zero]
    exact u16_roundtrip (Nat.mod_lt _ (by omega))

/-- A packet whose answer section is 65536 unknown-variant records (each of
which encodes to zero bytes). -/
def bigMsg : DnsPacket :=
  { header := DnsHeader.new
    questions := []
    answers := List.replicate 65536 (.UNKNOWN [] 0 0 0)
    authorities := []
    resources := [] }

theorem writeRecordList_unknown_id :
    ∀ (n : Nat) (s : BytePacketBuffer),
    writeRecordList s (List.replicate n (DnsRecord.UNKNOWN [] 0 0 0)) = .ok s := by
  intro n
  induction n with
  | zero => intro s; rfl
  | succ n ih =>
    intro s
    simp only [List.replicate_succ, writeRecordList, DnsRecord.write]
    exact ih s

theorem bigMsg_header_fix : (fixCounts bigMsg).header = DnsHeader.new := by
  unfold fixCounts
  dsimp only
  rw [show bigMsg.questions.length = 0 from rfl,
    show bigMsg.answers.length = 65536 from List.length_replicate 65536 _,
    show bigMsg.authorities.length = 0 from rfl,
    show bigMsg.resources.length = 0 from rfl]
  rfl

theorem bigMsg_write :
    bigMsg.write BytePacketBuffer.new = .ok (fixCounts bigMsg, ⟨List.replicate 512 0, 12⟩) := by
  unfold DnsPacket.write
  rw [bigMsg_header_fix]
  have hw0 : DnsHeader.write DnsHeader.new BytePacketBuffer.new =
      .ok ⟨List.replicate 512 0, 12⟩ := by decide
  have hq : bigMsg.questions = [] := rfl
  have ha : bigMsg.answers = List.replicate 65536 (.UNKNOWN [] 0 0 0) := rfl
  have hau : bigMsg.authorities = [] := rfl
  have hre : bigMsg.resources = [] := rfl
  simp only [hw0, hq, hau, hre, writeQuestionList]
  simp only [ha, writeRecordList_unknown_id]
  simp only [writeRecordList]

/-- C8 counterexample: a packet with 65536 unknown-variant answers encodes
successfully, but the `len as u16` cast truncates the count — the answer-count
bytes of the encoding hold 0, not the actual section length 65536 — refuting
the claim that the written counts always equal the actual lengths. -/
theorem encode_counts_truncated :
    bigMsg.write BytePacketBuffer.new = .ok (fixCounts bigMsg, ⟨List.replicate 512 0, 12⟩) ∧
    bigMsg.answers.length = 65536 ∧
    u16At (List.replicate 512 0) 6 = 0 ∧ (0 : Nat) ≠ 65536 := by
  refine ⟨bigMsg_write, List.length_replicate 65536 _, by decide, by omega⟩

/-- Witness for the amended C8, on the empty packet. -/
theorem encode_header_counts_witness :
    u16At (List.replicate 512 0) 4 = DnsPacket.new.questions.length % 65536 ∧
    u16At (List.replicate 512 0) 6 = DnsPacket.new.answers.length % 65536 ∧
    u16At (List.replicate 512 0) 8 = DnsPacket.new.authorities.length % 65536 ∧
    u16At (List.replicate 512 0) 10 = DnsPacket.new.resources.length % 65536 ∧
    (fixCounts DnsPacket.new).header.questions = DnsPacket.new.questions.length % 65536 ∧
    (fixCounts DnsPacket.new).header.answers = DnsPacket.new.answers.length % 65536 ∧
    (fixCounts DnsPacket.new).header.authoritative_entries =
      DnsPacket.new.authorities.length % 65536 ∧
    (fixCounts DnsPacket.new).header.resource_entries =
      DnsPacket.new.resources.length % 65536 :=
  encode_header_counts DnsPacket.new (fixCounts DnsPacket.new)
    ⟨List.replicate 512 0, 12⟩ (by decide)

/-! ### C9: unknown records are counted but never written -/

/-- A packet with one unknown-variant answer whose fields coincide with what
zero bytes decode to. -/
def umsgZero : DnsPacket :=
  { header := { DnsHeader.new with answers := 1 }
    questions := []
    answers := [.UNKNOWN [] 0 0 0]
    authorities := []
    resources := [] }

/-- The same packet but with a nonzero unknown type code. -/
def umsgSeven : DnsPacket :=
  { header := { DnsHeader.new with answers := 1 }
    questions := []
    answers := [.UNKNOWN [] 7 0 0]
    authorities := []
    resources := [] }

/-- The 512 bytes both packets encode to: a header declaring one answer and
nothing else. -/
def umsgBytes : List Nat := [0, 0, 0, 0, 0, 0, 0, 1, 0, 0, 0, 0] ++ List.replicate 500 0

/-- C9 counterexample: the claim asserts that a message with an unknown-variant
record never reproduces itself through encode-then-decode; but a message whose
unknown answer is exactly `UNKNOWN {domain: "", qtype: 0, data_len: 0, ttl: 0}`
round-trips exactly — the zero padding decodes back to that very record. -/
theorem unknown_record_roundtrips :
    umsgZero.write BytePacketBuffer.new = .ok (umsgZero, ⟨umsgBytes, 12⟩) ∧
    DnsPacket.from_buffer ⟨umsgBytes, 0⟩ = .ok umsgZero := by
  constructor
  · decide
  · decide

/-- C9 amended: encoding a message containing an unknown-variant record
includes that record in the header count for its section while writing zero
bytes of record data (`DnsRecord::write` leaves the buffer untouched and
reports 0 bytes), so the encoded buffer declares more records than it
contains; decoding the encoded bytes therefore NEED NOT reproduce the original
message — e.g. the unknown type code 7 decodes back as 0 — though an unknown
record whose fields coincide with the zero-padding decode can round-trip. -/
theorem unknown_records_counted_not_written :
    (∀ (domain : List Nat) (qt dl ttl : Nat) (s : BytePacketBuffer),
      DnsRecord.write (.UNKNOWN domain qt dl ttl) s = .ok (0, s)) ∧
    (∀ (p p' : DnsPacket) (s' : BytePacketBuffer),
      p.write BytePacketBuffer.new = .ok (p', s') →
      u16At s'.buf 6 = p.answers.length % 65536) ∧
    (umsgSeven.write BytePacketBuffer.new = .ok (umsgSeven, ⟨umsgBytes, 12⟩) ∧
      u16At umsgBytes 6 = 1 ∧
      DnsPacket.from_buffer ⟨umsgBytes, 0⟩ = .ok umsgZero ∧ umsgZero ≠ umsgSeven) := by
  refine ⟨?_, ?_, by decide, by decide, by decide, by decide⟩
  · intro domain qt dl ttl s
    simp [DnsRecord.write]
  · intro p p' s' h
    unfold u16At
    rw [encode_count_bytes h 6 (by omega), encode_count_bytes h 7 (by omega),
      headerBytes_explicit]
    simp only [List.getD_cons_succ, List.getD_cons_zero]
    exact u16_roundtrip (Nat.mod_lt _ (by omega))

/-- Witness for the amended C9 at concrete inputs. -/
theorem unknown_records_counted_not_written_witness :
    DnsRecord.write (.UNKNOWN [] 7 0 0) BytePacketBuffer.new = .ok (0, BytePacketBuffer.new) ∧
    u16At umsgBytes 6 = umsgSeven.answers.length % 65536 :=
  ⟨unknown_records_counted_not_written.1 [] 7 0 0 BytePacketBuffer.new,
   unknown_records_counted_not_written.2.1 umsgSeven umsgSeven ⟨umsgBytes, 12⟩ (by decide)⟩

/-! ### C1: round trip — decode-side read-back -/

/-- `HasBytes buf p bs`: the buffer holds exactly the bytes `bs` starting at
position `p`. -/
def HasBytes (buf : List Nat) (p : Nat) (bs : List Nat) : Prop :=
  ∀ i, i < bs.length → buf.getD (p + i) 0 = bs.getD i 0

theorem HasBytes.of_cons {buf : List Nat} {p : Nat} {b : Nat} {bs : List Nat}
    (h : HasBytes buf p (b :: bs)) : buf.getD p 0 = b ∧ HasBytes buf (p + 1) bs := by
  constructor
  · have := h 0 (by simp)
    simpa using this
  · intro i hi
    have := h (i + 1) (by simp; omega)
    rw [show p + (i + 1) = p + 1 + i from by omega] at this
    simpa using this

theorem HasBytes.append_split {buf : List Nat} {p : Nat} {b1 b2 : List Nat}
    (h : HasBytes buf p (b1 ++ b2)) :
    HasBytes buf p b1 ∧ HasBytes buf (p + b1.length) b2 := by
  constructor
  · intro i hi
    have := h i (by simp; omega)
    rw [this, getD_append_left hi]
  · intro i hi
    have := h (b1.length + i) (by simp; omega)
    rw [show p + (b1.length + i) = p + b1.length + i from by omega] at this
    rw [this, getD_append_right (by omega)]
    congr 1
    omega

theorem take_drop_eq_of_getD :
    ∀ (l : List Nat) (buf : List Nat) (q : Nat),
    q + l.length ≤ buf.length →
    (∀ i, i < l.length → buf.getD (q + i) 0 = l.getD i 0) →
    (buf.drop q).take l.length = l := by
  intro l
  induction l with
  | nil => intro buf q _ _; simp
  | cons b bs ih =>
    intro buf q hlen hb
    have hq : q < buf.length := by simp at hlen; omega
    rw [List.drop_eq_getElem_cons hq]
    simp only [List.length_cons]
    rw [List.take_succ_cons]
    congr 1
    · have h0 := hb 0 (by simp)
      simp only [Nat.add_zero, List.getD_cons_zero] at h0
      rw [List.getD_eq_getElem?_getD, List.getElem?_eq_getElem hq] at h0
      simpa using h0
    · have hdrop : buf.drop (q + 1) = (buf.drop q).tail := by
        rw [List.drop_eq_getElem_cons hq]
        rfl
      rw [← hdrop] at *
      apply ih buf (q + 1) (by simp at hlen ⊢; omega)
      intro i hi
      have := hb (i + 1) (by simp; omega)
      rw [show q + (i + 1) = q + 1 + i from by omega] at this
      simpa using this

theorem land_192_of_le_63 {n : Nat} (h : n ≤ 63) : n &&& 192 = 0 := by
  apply Nat.eq_of_testBit_eq
  intro i
  rw [Nat.testBit_land]
  rcases Nat.lt_or_ge i 6 with hi | hi
  · have h192 : Nat.testBit 192 i = false := by interval_cases i <;> decide
    simp [h192]
  · have hn : Nat.testBit n i = false :=
      Nat.testBit_lt_two_pow (lt_of_le_of_lt h (by
        calc (63 : Nat) < 2 ^ 6 := by norm_num
          _ ≤ 2 ^ i := Nat.pow_le_pow_right (by norm_num) hi))
    simp [hn]

/-- The name the decoder assembles from a label list: each label lowercased,
joined with dots. -/
def joinLowerDot : List (List Nat) → List Nat
  | [] => []
  | l :: ls =>
    l.map lowerByte ++ (match ls with | [] => [] | _ :: _ => 46 :: joinLowerDot ls)

theorem splitOnDot_ne_nil : ∀ (name : List Nat), splitOnDot name ≠ [] := by
  intro name
  cases name with
  | nil => simp [splitOnDot]
  | cons b rest =>
    unfold splitOnDot
    split
    · simp
    · cases h : splitOnDot rest <;> simp

theorem joinLowerDot_split (name : List Nat)
    (h : ∀ l ∈ splitOnDot name, ∀ b ∈ l, lowerByte b = b) :
    joinLowerDot (splitOnDot name) = name := by
  induction name with
  | nil => rfl
  | cons b rest ih =>
    by_cases hb : b = 46
    · subst hb
      have hs : splitOnDot (46 :: rest) = [] :: splitOnDot rest := by
        rw [splitOnDot]
        simp
      rw [hs] at h ⊢
      cases hS : splitOnDot rest with
      | nil => exact absurd hS (splitOnDot_ne_nil rest)
      | cons s0 S' =>
        have ihh := ih (by
          intro l hl b hbmem
          exact h l (List.mem_cons_of_mem _ hl) b hbmem)
        rw [hS] at ihh
        simp only [joinLowerDot, List.map_nil, List.nil_append] at ihh ⊢
        rw [ihh]
    · cases hS : splitOnDot rest with
      | nil => exact absurd hS (splitOnDot_ne_nil rest)
      | cons l ls =>
        have hs : splitOnDot (b :: rest) = (b :: l) :: ls := by
          unfold splitOnDot
          rw [if_neg hb, hS]
        rw [hs] at h ⊢
        have hbfix : lowerByte b = b := h (b :: l) (by simp) b (by simp)
        have ihh := ih (by
          intro l' hl' b' hb'
          rw [hS] at hl'
          rcases List.mem_cons.mp hl' with rfl | hmem
          · exact h (b :: l') (by simp) b' (by simp [hb'])
          · exact h l' (by simp [hmem]) b' hb')
        rw [hS] at ihh
        simp only [joinLowerDot, List.map_cons, List.cons_append] at ihh ⊢
        rw [hbfix, ihh]

theorem labelsBytes_len_ge : ∀ (L : List (List Nat)), L.length ≤ (labelsBytes L).length := by
  intro L
  induction L with
  | nil => simp [labelsBytes]
  | cons l ls ih => simp [labelsBytes]; omega

/-- Validity of a name for exact round-tripping, as the claim restricts it:
every label (piece between dots) is nonempty, within the 63-byte limit, and
consists of lowercase-ASCII bytes (ASCII, not uppercase). -/
def nameOk (name : List Nat) : Prop :=
  ∀ l ∈ splitOnDot name, l ≠ [] ∧ l.length ≤ 63 ∧ ∀ b ∈ l, b < 128 ∧ lowerByte b = b

/-- Reading the label sequence `L` (as laid out by the label loop of
`write_qname`, terminator included) in the not-yet-jumped phase: consumes the
encoding exactly and appends the lowercased dotted name. -/
theorem readQnameAux_encoded :
    ∀ (L : List (List Nat)) (fuel : Nat) (s : BytePacketBuffer) (p jumps : Nat)
      (delim out : List Nat),
    s.buf.length = 512 →
    (∀ l ∈ L, l ≠ [] ∧ l.length ≤ 63) →
    HasBytes s.buf p (labelsBytes L ++ [0]) →
    p + (labelsBytes L).length + 1 ≤ 512 →
    ¬ 5 < jumps → L.length < fuel →
    readQnameAux fuel s p false jumps delim out =
      .ok ({ s with pos := p + (labelsBytes L).length + 1 },
        out ++ (match L with | [] => [] | _ :: _ => delim ++ joinLowerDot L)) := by
  intro L
  induction L with
  | nil =>
    intro fuel s p jumps delim out _ _ hbytes hbound hj hfuel
    obtain ⟨fuel, rfl⟩ : ∃ f, fuel = f + 1 := ⟨fuel - 1, by omega⟩
    have h0 : s.buf.getD p 0 = 0 := by
      have := hbytes 0 (by simp)
      simpa using this
    have hlb : (labelsBytes ([] : List (List Nat))).length = 0 := by simp [labelsBytes]
    rw [readQnameAux_term fuel s p jumps delim out (by omega) h0 hj]
    simp [labelsBytes]
  | cons l ls ih =>
    intro fuel s p jumps delim out hblen hL hbytes hbound hj hfuel
    obtain ⟨fuel, rfl⟩ : ∃ f, fuel = f + 1 := ⟨fuel - 1, by omega⟩
    obtain ⟨hlnil, hl63⟩ := hL l (by simp)
    have hlen_lb : (labelsBytes (l :: ls)).length = 1 + l.length + (labelsBytes ls).length := by
      simp [labelsBytes]
      omega
    have hcons : labelsBytes (l :: ls) ++ [0] =
        l.length :: (l ++ (labelsBytes ls ++ [0])) := by
      simp [labelsBytes, List.append_assoc]
    rw [hcons] at hbytes
    obtain ⟨hp0, hrest⟩ := hbytes.of_cons
    obtain ⟨hlbl, htail⟩ := hrest.append_split
    have hpos : p < 512 := by omega
    have hget : s.get p = .ok l.length := by
      unfold BytePacketBuffer.get
      rw [if_neg (by omega), hp0]
    have hptr : ¬ (l.length &&& 0xC0 = 0xC0) := by
      rw [land_192_of_le_63 hl63]
      decide
    have hz : ¬ (l.length = 0) := fun h => hlnil (List.eq_nil_of_length_eq_zero h)
    have hslice : (s.buf.drop (p + 1)).take l.length = l := by
      apply take_drop_eq_of_getD l s.buf (p + 1) (by omega)
      intro i hi
      exact hlbl i hi
    have hgr : s.get_range (p + 1) l.length = .ok l := by
      unfold BytePacketBuffer.get_range
      rw [if_neg (by omega), hslice]
    simp only [readQnameAux, if_neg hj, hget, hptr, hz, hgr, ite_false, if_false]
    rw [ih fuel s (p + 1 + l.length) jumps [46] (out ++ delim ++ List.map lowerByte l)
      hblen (fun l' hl' => hL l' (by simp [hl'])) htail (by omega) hj (by simp at hfuel ⊢; omega)]
    have hpos' : p + 1 + l.length + (labelsBytes ls).length + 1 =
        p + (labelsBytes (l :: ls)).length + 1 := by
      rw [hlen_lb]
      omega
    rw [hpos']
    cases ls with
    | nil => simp [joinLowerDot]
    | cons x xs => simp [joinLowerDot, List.append_assoc]

/-- `read_qname` on the bytes `write_qname` produced for a valid name yields
that very name and consumes exactly the encoding. -/
theorem readQname_encoded (buf : List Nat) (name : List Nat) (p : Nat)
    (hblen : buf.length = 512) (hok : nameOk name)
    (hbytes : HasBytes buf p (qnameBytes name))
    (hbound : p + (qnameBytes name).length ≤ 512) :
    BytePacketBuffer.readQname ⟨buf, p⟩ =
      .ok (⟨buf, p + (qnameBytes name).length⟩, name) := by
  have hq : (qnameBytes name).length = (labelsBytes (splitOnDot name)).length + 1 := by
    simp [qnameBytes]
  have hfuel : (splitOnDot name).length < qnameFuel := by
    have h1 := labelsBytes_len_ge (splitOnDot name)
    have h2 : (labelsBytes (splitOnDot name)).length + 1 ≤ 512 := by omega
    show _ < 4096
    omega
  unfold BytePacketBuffer.readQname
  rw [show (⟨buf, p⟩ : BytePacketBuffer).pos = p from rfl]
  rw [readQnameAux_encoded (splitOnDot name) qnameFuel ⟨buf, p⟩ p 0 [] [] hblen
    (fun l hl => ⟨(hok l hl).1, (hok l hl).2.1⟩)
    (by unfold qnameBytes at hbytes; exact hbytes) (by omega) (by omega) hfuel]
  cases hS : splitOnDot name with
  | nil => exact absurd hS (splitOnDot_ne_nil name)
  | cons s0 S' =>
    have hj : joinLowerDot (splitOnDot name) = name :=
      joinLowerDot_split name (fun l hl b hb => ((hok l hl).2.2 b hb).2)
    rw [hS] at hj
    simp only [List.nil_append]
    rw [hj]
    have : p + (labelsBytes (s0 :: S')).length + 1 = p + (qnameBytes name).length := by
      rw [hq, hS]
      omega
    rw [this]

/-- Unpacking the first packed flag byte (all 256 possible field combinations). -/
theorem byteA_unpack (op : Fin 16) (b1 b2 b3 b4 : Bool) :
    decide (0 < (boolNat b1 ||| (boolNat b2 <<< 1) ||| (boolNat b3 <<< 2) ||| ((op.val <<< 3) % 256) ||| (boolNat b4 <<< 7)) &&& 1) = b1 ∧
    decide (0 < (boolNat b1 ||| (boolNat b2 <<< 1) ||| (boolNat b3 <<< 2) ||| ((op.val <<< 3) % 256) ||| (boolNat b4 <<< 7)) &&& (1 <<< 1)) = b2 ∧
    decide (0 < (boolNat b1 ||| (boolNat b2 <<< 1) ||| (boolNat b3 <<< 2) ||| ((op.val <<< 3) % 256) ||| (boolNat b4 <<< 7)) &&& (1 <<< 2)) = b3 ∧
    (((boolNat b1 ||| (boolNat b2 <<< 1) ||| (boolNat b3 <<< 2) ||| ((op.val <<< 3) % 256) ||| (boolNat b4 <<< 7)) >>> 3) &&& 0x0F) = op.val ∧
    decide (0 < (boolNat b1 ||| (boolNat b2 <<< 1) ||| (boolNat b3 <<< 2) ||| ((op.val <<< 3) % 256) ||| (boolNat b4 <<< 7)) &&& (1 <<< 7)) = b4 ∧
    (boolNat b1 ||| (boolNat b2 <<< 1) ||| (boolNat b3 <<< 2) ||| ((op.val <<< 3) % 256) ||| (boolNat b4 <<< 7)) < 256 := by
  revert b1 b2 b3 b4
  revert op
  decide

/-- Unpacking the second packed flag byte. -/
theorem byteB_unpack (r : ResultCode) (b1 b2 b3 b4 : Bool) :
    ResultCode.fromU8 ((r.toNat ||| (boolNat b1 <<< 4) ||| (boolNat b2 <<< 5) ||| (boolNat b3 <<< 6) ||| (boolNat b4 <<< 7)) &&& 0x0F) = r ∧
    decide (0 < (r.toNat ||| (boolNat b1 <<< 4) ||| (boolNat b2 <<< 5) ||| (boolNat b3 <<< 6) ||| (boolNat b4 <<< 7)) &&& (1 <<< 4)) = b1 ∧
    decide (0 < (r.toNat ||| (boolNat b1 <<< 4) ||| (boolNat b2 <<< 5) ||| (boolNat b3 <<< 6) ||| (boolNat b4 <<< 7)) &&& (1 <<< 5)) = b2 ∧
    decide (0 < (r.toNat ||| (boolNat b1 <<< 4) ||| (boolNat b2 <<< 5) ||| (boolNat b3 <<< 6) ||| (boolNat b4 <<< 7)) &&& (1 <<< 6)) = b3 ∧
    decide (0 < (r.toNat ||| (boolNat b1 <<< 4) ||| (boolNat b2 <<< 5) ||| (boolNat b3 <<< 6) ||| (boolNat b4 <<< 7)) &&& (1 <<< 7)) = b4 ∧
    (r.toNat ||| (boolNat b1 <<< 4) ||| (boolNat b2 <<< 5) ||| (boolNat b3 <<< 6) ||| (boolNat b4 <<< 7)) < 256 := by
  cases r <;> revert b1 b2 b3 b4 <;> decide

/-- Splitting a 16-bit flags value back into its two bytes. -/
theorem flags_split {bA bB : Nat} (hA : bA < 256) (hB : bB < 256) :
    (((bA <<< 8) ||| bB) >>> 8) % 256 = bA ∧ ((bA <<< 8) ||| bB) &&& 0xFF = bB := by
  rw [u16_combine hB, and_255, shiftR_8]
  constructor
  · omega
  · omega

theorem DnsHeader_ext {h1 h2 : DnsHeader}
    (e1 : h1.id = h2.id)
    (e2 : h1.recursion_desired = h2.recursion_desired)
    (e3 : h1.truncated_message = h2.truncated_message)
    (e4 : h1.authoritative_answer = h2.authoritative_answer)
    (e5 : h1.opcode = h2.opcode)
    (e6 : h1.response = h2.response)
    (e7 : h1.rescode = h2.rescode)
    (e8 : h1.checking_disabled = h2.checking_disabled)
    (e9 : h1.authed_data = h2.authed_data)
    (e10 : h1.z = h2.z)
    (e11 : h1.recursion_available = h2.recursion_available)
    (e12 : h1.questions = h2.questions)
    (e13 : h1.answers = h2.answers)
    (e14 : h1.authoritative_entries = h2.authoritative_entries)
    (e15 : h1.resource_entries = h2.resource_entries) : h1 = h2 := by
  cases h1
  cases h2
  rw [DnsHeader.mk.injEq]
  exact ⟨e1, e2, e3, e4, e5, e6, e7, e8, e9, e10, e11, e12, e13, e14, e15⟩

/-- Reading back the 12 bytes `DnsHeader::write` produced reconstructs the
header exactly (all fields within their machine ranges). -/
theorem DnsHeader_read_encoded (buf : List Nat) (h : DnsHeader) (p : Nat)
    (hid : h.id < 65536) (hop : h.opcode < 16) (hq : h.questions < 65536)
    (ha : h.answers < 65536) (hau : h.authoritative_entries < 65536)
    (hre : h.resource_entries < 65536)
    (hbytes : HasBytes buf p (headerBytes h)) (hbound : p + 12 ≤ 512) :
    DnsHeader.read ⟨buf, p⟩ = .ok (h, ⟨buf, p + 12⟩) := by
  have hb : ∀ i, i < 12 → buf.getD (p + i) 0 = (headerBytes h).getD i 0 := by
    intro i hi
    exact hbytes i (by rw [headerBytes_length]; omega)
  have e0 : buf.getD (p) 0 = (h.id >>> 8) % 256 := by
    have := hb 0 (by omega)
    rw [headerBytes_explicit] at this
    simpa using this
  have e1 : buf.getD (p + 1) 0 = h.id &&& 0xFF := by
    have := hb 1 (by omega)
    rw [headerBytes_explicit] at this
    simpa using this
  have e2 : buf.getD (p + 2) 0 = headerByteA h := by
    have := hb 2 (by omega)
    rw [headerBytes_explicit] at this
    simpa using this
  have e3 : buf.getD (p + 2 + 1) 0 = headerByteB h := by
    have := hb 3 (by omega)
    rw [headerBytes_explicit] at this
    simpa using this
  have e4 : buf.getD (p + 4) 0 = (h.questions >>> 8) % 256 := by
    have := hb 4 (by omega)
    rw [headerBytes_explicit] at this
    simpa using this
  have e5 : buf.getD (p + 4 + 1) 0 = h.questions &&& 0xFF := by
    have := hb 5 (by omega)
    rw [headerBytes_explicit] at this
    simpa using this
  have e6 : buf.getD (p + 6) 0 = (h.answers >>> 8) % 256 := by
    have := hb 6 (by omega)
    rw [headerBytes_explicit] at this
    simpa using this
  have e7 : buf.getD (p + 6 + 1) 0 = h.answers &&& 0xFF := by
    have := hb 7 (by omega)
    rw [headerBytes_explicit] at this
    simpa using this
  have e8 : buf.getD (p + 8) 0 = (h.authoritative_entries >>> 8) % 256 := by
    have := hb 8 (by omega)
    rw [headerBytes_explicit] at this
    simpa using this
  have e9 : buf.getD (p + 8 + 1) 0 = h.authoritative_entries &&& 0xFF := by
    have := hb 9 (by omega)
    rw [headerBytes_explicit] at this
    simpa using this
  have e10 : buf.getD (p + 10) 0 = (h.resource_entries >>> 8) % 256 := by
    have := hb 10 (by omega)
    rw [headerBytes_explicit] at this
    simpa using this
  have e11 : buf.getD (p + 10 + 1) 0 = h.resource_entries &&& 0xFF := by
    have := hb 11 (by omega)
    rw [headerBytes_explicit] at this
    simpa using this
  have hu_id : u16At buf p = h.id := by
    unfold u16At
    rw [e0, e1]
    exact u16_roundtrip hid
  have hAu := byteA_unpack ⟨h.opcode, hop⟩ h.recursion_desired h.truncated_message
    h.authoritative_answer h.response
  have hBu := byteB_unpack h.rescode h.checking_disabled h.authed_data h.z
    h.recursion_available
  have hAlt : headerByteA h < 256 := hAu.2.2.2.2.2
  have hBlt : headerByteB h < 256 := hBu.2.2.2.2.2
  have hsp := flags_split hAlt hBlt
  have hu_flags : u16At buf (p + 2) = (headerByteA h <<< 8) ||| headerByteB h := by
    unfold u16At
    rw [e2, e3]
  have hu_q : u16At buf (p + 4) = h.questions := by
    unfold u16At
    rw [e4, e5]
    exact u16_roundtrip hq
  have hu_a : u16At buf (p + 6) = h.answers := by
    unfold u16At
    rw [e6, e7]
    exact u16_roundtrip ha
  have hu_au : u16At buf (p + 8) = h.authoritative_entries := by
    unfold u16At
    rw [e8, e9]
    exact u16_roundtrip hau
  have hu_re : u16At buf (p + 10) = h.resource_entries := by
    unfold u16At
    rw [e10, e11]
    exact u16_roundtrip hre
  obtain ⟨hd, hread, f1, f2, f3, f4, f5, f6, f7, f8, f9, f10, f11, f12, f13, f14, f15⟩ :=
    DnsHeader_read_bytes buf p hbound
  rw [hread]
  have hA1 : decide (0 < headerByteA h &&& 1) = h.recursion_desired := hAu.1
  have hA2 : decide (0 < headerByteA h &&& (1 <<< 1)) = h.truncated_message := hAu.2.1
  have hA3 : decide (0 < headerByteA h &&& (1 <<< 2)) = h.authoritative_answer := hAu.2.2.1
  have hA4 : (headerByteA h >>> 3) &&& 0x0F = h.opcode := hAu.2.2.2.1
  have hA5 : decide (0 < headerByteA h &&& (1 <<< 7)) = h.response := hAu.2.2.2.2.1
  have hB1 : ResultCode.fromU8 (headerByteB h &&& 0x0F) = h.rescode := hBu.1
  have hB2 : decide (0 < headerByteB h &&& (1 <<< 4)) = h.checking_disabled := hBu.2.1
  have hB3 : decide (0 < headerByteB h &&& (1 <<< 5)) = h.authed_data := hBu.2.2.1
  have hB4 : decide (0 < headerByteB h &&& (1 <<< 6)) = h.z := hBu.2.2.2.1
  have hB5 : decide (0 < headerByteB h &&& (1 <<< 7)) = h.recursion_available := hBu.2.2.2.2.1
  rw [hu_flags, hsp.1] at f2 f3 f4 f5 f6
  rw [hu_flags, hsp.2] at f7 f8 f9 f10 f11
  rw [hu_id] at f1
  rw [hu_q] at f12
  rw [hu_a] at f13
  rw [hu_au] at f14
  rw [hu_re] at f15
  rw [hA1] at f2
  rw [hA2] at f3
  rw [hA3] at f4
  rw [hA4] at f5
  rw [hA5] at f6
  rw [hB1] at f7
  rw [hB2] at f8
  rw [hB3] at f9
  rw [hB4] at f10
  rw [hB5] at f11
  rw [DnsHeader_ext f1 f2 f3 f4 f5 f6 f7 f8 f9 f10 f11 f12 f13 f14 f15]

theorem lor_eq_add_pow {x y m k : Nat} (hm : m = 2 ^ k) (hx : x % m = 0) (hy : y < m) :
    x ||| y = x + y := by
  subst hm
  exact lor_eq_add hx hy

theorem read_u32_bytes (buf : List Nat) (q : Nat) (h : q + 3 < 512) :
    BytePacketBuffer.read_u32 ⟨buf, q⟩ =
      .ok ((buf.getD q 0 <<< 24) ||| (buf.getD (q + 1) 0 <<< 16) |||
        (buf.getD (q + 2) 0 <<< 8) ||| buf.getD (q + 3) 0, ⟨buf, q + 4⟩) := by
  unfold BytePacketBuffer.read_u32 BytePacketBuffer.read
  rw [if_neg (by simp; omega)]
  simp only []
  rw [if_neg (by simp; omega)]
  simp only []
  rw [if_neg (by simp; omega)]
  simp only []
  rw [if_neg (by simp; omega)]

theorem u32_roundtrip {v : Nat} (h : v < 4294967296) :
    (((v >>> 24) &&& 0xFF) <<< 24) ||| (((v >>> 16) &&& 0xFF) <<< 16) |||
      (((v >>> 8) &&& 0xFF) <<< 8) ||| (v &&& 0xFF) = v := by
  have e24 : v >>> 24 = v / 16777216 := by rw [Nat.shiftRight_eq_div_pow]
  have e16 : v >>> 16 = v / 65536 := by rw [Nat.shiftRight_eq_div_pow]
  have e8' : v >>> 8 = v / 256 := shiftR_8 v
  have s24 : ∀ a : Nat, a <<< 24 = a * 16777216 := fun a => by rw [Nat.shiftLeft_eq]
  have s16 : ∀ a : Nat, a <<< 16 = a * 65536 := fun a => by rw [Nat.shiftLeft_eq]
  rw [and_255, and_255, and_255, and_255, e24, e16, e8', s24, s16, shiftL_8]
  have l1 : v / 16777216 % 256 * 16777216 ||| v / 65536 % 256 * 65536 =
      v / 16777216 % 256 * 16777216 + v / 65536 % 256 * 65536 :=
    lor_eq_add_pow (show (16777216 : Nat) = 2 ^ 24 by norm_num) (by omega) (by omega)
  have l2 : v / 16777216 % 256 * 16777216 + v / 65536 % 256 * 65536 ||| v / 256 % 256 * 256 =
      v / 16777216 % 256 * 16777216 + v / 65536 % 256 * 65536 + v / 256 % 256 * 256 :=
    lor_eq_add_pow (show (65536 : Nat) = 2 ^ 16 by norm_num) (by omega) (by omega)
  have l3 : v / 16777216 % 256 * 16777216 + v / 65536 % 256 * 65536 + v / 256 % 256 * 256 |||
        v % 256 =
      v / 16777216 % 256 * 16777216 + v / 65536 % 256 * 65536 + v / 256 % 256 * 256 + v % 256 :=
    lor_eq_add_pow (show (256 : Nat) = 2 ^ 8 by norm_num) (by omega) (by omega)
  rw [l1, l2, l3]
  omega

theorem u32_octets_sum {o1 o2 o3 o4 : Nat} (_ : o1 < 256) (h2 : o2 < 256) (h3 : o3 < 256)
    (h4 : o4 < 256) :
    (o1 <<< 24) ||| (o2 <<< 16) ||| (o3 <<< 8) ||| o4 =
      o1 * 16777216 + o2 * 65536 + o3 * 256 + o4 := by
  have s24 : o1 <<< 24 = o1 * 16777216 := by rw [Nat.shiftLeft_eq]
  have s16 : o2 <<< 16 = o2 * 65536 := by rw [Nat.shiftLeft_eq]
  rw [s24, s16, shiftL_8]
  have l1 : o1 * 16777216 ||| o2 * 65536 = o1 * 16777216 + o2 * 65536 :=
    lor_eq_add_pow (show (16777216 : Nat) = 2 ^ 24 by norm_num) (by omega) (by omega)
  have l2 : o1 * 16777216 + o2 * 65536 ||| o3 * 256 =
      o1 * 16777216 + o2 * 65536 + o3 * 256 :=
    lor_eq_add_pow (show (65536 : Nat) = 2 ^ 16 by norm_num) (by omega) (by omega)
  have l3 : o1 * 16777216 + o2 * 65536 + o3 * 256 ||| o4 =
      o1 * 16777216 + o2 * 65536 + o3 * 256 + o4 :=
    lor_eq_add_pow (show (256 : Nat) = 2 ^ 8 by norm_num) (by omega) (by omega)
  rw [l1, l2, l3]

theorem u32_octets_1 {o1 o2 o3 o4 : Nat} (h1 : o1 < 256) (h2 : o2 < 256) (h3 : o3 < 256)
    (h4 : o4 < 256) :
    ((((o1 <<< 24) ||| (o2 <<< 16) ||| (o3 <<< 8) ||| o4) >>> 24) &&& 0xFF) = o1 ∧
    ((((o1 <<< 24) ||| (o2 <<< 16) ||| (o3 <<< 8) ||| o4) >>> 16) &&& 0xFF) = o2 ∧
    ((((o1 <<< 24) ||| (o2 <<< 16) ||| (o3 <<< 8) ||| o4) >>> 8) &&& 0xFF) = o3 ∧
    (((o1 <<< 24) ||| (o2 <<< 16) ||| (o3 <<< 8) ||| o4) &&& 0xFF) = o4 := by
  rw [u32_octets_sum h1 h2 h3 h4, and_255, and_255, and_255, and_255]
  have d24 : ∀ a : Nat, a >>> 24 = a / 16777216 := fun a => by rw [Nat.shiftRight_eq_div_pow]
  have d16 : ∀ a : Nat, a >>> 16 = a / 65536 := fun a => by rw [Nat.shiftRight_eq_div_pow]
  rw [d24, d16, shiftR_8]
  refine ⟨by omega, by omega, by omega, by omega⟩

theorem read_u16_at_u16Bytes (buf : List Nat) (pos v : Nat) (hv : v < 65536)
    (hb : HasBytes buf pos (u16Bytes v)) (hbound : pos + 2 ≤ 512) :
    BytePacketBuffer.read_u16 ⟨buf, pos⟩ = .ok (v, ⟨buf, pos + 2⟩) := by
  rw [read_u16_bytes buf pos (by omega)]
  have h0 := hb 0 (by simp [u16Bytes])
  have h1 := hb 1 (by simp [u16Bytes])
  simp only [u16Bytes, Nat.add_zero, List.getD_cons_zero, List.getD_cons_succ] at h0 h1
  rw [h0, h1, u16_roundtrip hv]

theorem read_u32_at_u32Bytes (buf : List Nat) (pos v : Nat) (hv : v < 4294967296)
    (hb : HasBytes buf pos (u32Bytes v)) (hbound : pos + 4 ≤ 512) :
    BytePacketBuffer.read_u32 ⟨buf, pos⟩ = .ok (v, ⟨buf, pos + 4⟩) := by
  rw [read_u32_bytes buf pos (by omega)]
  have h0 := hb 0 (by simp [u32Bytes])
  have h1 := hb 1 (by simp [u32Bytes])
  have h2 := hb 2 (by simp [u32Bytes])
  have h3 := hb 3 (by simp [u32Bytes])
  simp only [u32Bytes, Nat.add_zero, List.getD_cons_zero, List.getD_cons_succ] at h0 h1 h2 h3
  rw [h0, h1, h2, h3, u32_roundtrip hv]

theorem read_u32_at_octets (buf : List Nat) (pos o1 o2 o3 o4 : Nat)
    (hb : HasBytes buf pos [o1, o2, o3, o4]) (hbound : pos + 4 ≤ 512) :
    BytePacketBuffer.read_u32 ⟨buf, pos⟩ =
      .ok ((o1 <<< 24) ||| (o2 <<< 16) ||| (o3 <<< 8) ||| o4, ⟨buf, pos + 4⟩) := by
  rw [read_u32_bytes buf pos (by omega)]
  have h0 := hb 0 (by simp)
  have h1 := hb 1 (by simp)
  have h2 := hb 2 (by simp)
  have h3 := hb 3 (by simp)
  simp only [Nat.add_zero, List.getD_cons_zero, List.getD_cons_succ] at h0 h1 h2 h3
  rw [h0, h1, h2, h3]

theorem QueryType_ofNat_toNat {qt : QueryType} (h : qt ≠ .UNKNOWN 1) :
    QueryType.ofNat qt.toNat = qt := by
  cases qt with
  | A => rfl
  | UNKNOWN n =>
    rcases n with _ | _ | k
    · rfl
    · exact absurd rfl h
    · rfl

theorem questionBytes_length (q : DnsQuestion) :
    (questionBytes q).length = (qnameBytes q.name).length + 4 := by
  simp [questionBytes, u16Bytes]

/-- Reading back the bytes `DnsQuestion::write` produced for a valid question. -/
theorem DnsQuestion_read_encoded (buf : List Nat) (q : DnsQuestion) (p : Nat)
    (hblen : buf.length = 512) (hok : nameOk q.name) (hqt : q.qtype.toNat < 65536)
    (hcanon : q.qtype ≠ .UNKNOWN 1)
    (hbytes : HasBytes buf p (questionBytes q))
    (hbound : p + (questionBytes q).length ≤ 512) :
    DnsQuestion.read ⟨buf, p⟩ = .ok (q, ⟨buf, p + (questionBytes q).length⟩) := by
  have hqlen := questionBytes_length q
  unfold questionBytes at hbytes
  obtain ⟨hab, hc⟩ := hbytes.append_split
  obtain ⟨ha, hb2⟩ := hab.append_split
  rw [show p + (qnameBytes q.name ++ u16Bytes q.qtype.toNat).length =
    p + (qnameBytes q.name).length + 2 from by simp [u16Bytes]; omega] at hc
  unfold DnsQuestion.read
  simp only [readQname_encoded buf q.name p hblen hok ha (by omega),
    read_u16_at_u16Bytes buf (p + (qnameBytes q.name).length) q.qtype.toNat hqt hb2
      (by omega),
    read_u16_at_u16Bytes buf (p + (qnameBytes q.name).length + 2) 1 (by omega) hc
      (by omega)]
  rw [QueryType_ofNat_toNat hcanon]
  rw [show p + (qnameBytes q.name).length + 2 + 2 = p + (questionBytes q).length from by
    rw [hqlen]; omega]

theorem recordBytes_A_length (d : List Nat) (addr : Ipv4Addr) (ttl : Nat) :
    (recordBytes (.A d addr ttl)).length = (qnameBytes d).length + 14 := by
  simp [recordBytes, u16Bytes, u32Bytes]

/-- Reading back the bytes `DnsRecord::write` produced for a valid A record. -/
theorem DnsRecord_read_encoded (buf : List Nat) (d : List Nat) (addr : Ipv4Addr)
    (ttl : Nat) (p : Nat)
    (hblen : buf.length = 512) (hok : nameOk d) (httl : ttl < 4294967296)
    (ho1 : addr.o1 < 256) (ho2 : addr.o2 < 256) (ho3 : addr.o3 < 256) (ho4 : addr.o4 < 256)
    (hbytes : HasBytes buf p (recordBytes (.A d addr ttl)))
    (hbound : p + (recordBytes (.A d addr ttl)).length ≤ 512) :
    DnsRecord.read ⟨buf, p⟩ =
      .ok (.A d addr ttl, ⟨buf, p + (recordBytes (.A d addr ttl)).length⟩) := by
  have hrlen := recordBytes_A_length d addr ttl
  unfold recordBytes at hbytes
  obtain ⟨h5, hg⟩ := hbytes.append_split
  obtain ⟨h4, hf⟩ := h5.append_split
  obtain ⟨h3, he⟩ := h4.append_split
  obtain ⟨h2, hc⟩ := h3.append_split
  obtain ⟨ha, hb2⟩ := h2.append_split
  rw [show p + (qnameBytes d ++ u16Bytes 1).length = p + (qnameBytes d).length + 2 from by
    simp [u16Bytes]; omega] at hc
  rw [show p + (qnameBytes d ++ u16Bytes 1 ++ u16Bytes 1).length =
    p + (qnameBytes d).length + 4 from by simp [u16Bytes]; omega] at he
  rw [show p + (qnameBytes d ++ u16Bytes 1 ++ u16Bytes 1 ++ u32Bytes ttl).length =
    p + (qnameBytes d).length + 4 + 4 from by simp [u16Bytes, u32Bytes]; omega] at hf
  rw [show p + (qnameBytes d ++ u16Bytes 1 ++ u16Bytes 1 ++ u32Bytes ttl ++
      u16Bytes 4).length = p + (qnameBytes d).length + 4 + 4 + 2 from by
    simp [u16Bytes, u32Bytes]; omega] at hg
  unfold DnsRecord.read
  simp only [readQname_encoded buf d p hblen hok ha (by omega),
    read_u16_at_u16Bytes buf (p + (qnameBytes d).length) 1 (by omega) hb2 (by omega),
    read_u16_at_u16Bytes buf (p + (qnameBytes d).length + 2) 1 (by omega) hc (by omega),
    read_u32_at_u32Bytes buf (p + (qnameBytes d).length + 4) ttl httl he (by omega),
    read_u16_at_u16Bytes buf (p + (qnameBytes d).length + 4 + 4) 4 (by omega) hf
      (by omega),
    QueryType.ofNat,
    read_u32_at_octets buf (p + (qnameBytes d).length + 4 + 4 + 2) addr.o1 addr.o2
      addr.o3 addr.o4 hg (by omega)]
  obtain ⟨x1, x2, x3, x4⟩ := u32_octets_1 ho1 ho2 ho3 ho4
  rw [x1, x2, x3, x4]
  rw [show p + (qnameBytes d).length + 4 + 4 + 2 + 4 =
    p + (recordBytes (.A d addr ttl)).length from by rw [hrlen]; omega]

/-- Validity of a record for exact round-tripping: only A records (the claim's
restriction), with in-range TTL and octets and a valid domain. -/
def recOk : DnsRecord → Prop
  | .A domain addr ttl =>
    nameOk domain ∧ ttl < 4294967296 ∧
      addr.o1 < 256 ∧ addr.o2 < 256 ∧ addr.o3 < 256 ∧ addr.o4 < 256
  | .UNKNOWN _ _ _ _ => False

theorem readQuestions_encoded :
    ∀ (qs : List DnsQuestion) (buf : List Nat) (p : Nat),
    buf.length = 512 →
    (∀ q ∈ qs, nameOk q.name ∧ q.qtype.toNat < 65536 ∧ q.qtype ≠ .UNKNOWN 1) →
    HasBytes buf p (questionsBytes qs) →
    p + (questionsBytes qs).length ≤ 512 →
    readQuestions ⟨buf, p⟩ qs.length = .ok (qs, ⟨buf, p + (questionsBytes qs).length⟩) := by
  intro qs
  induction qs with
  | nil =>
    intro buf p _ _ _ _
    simp [readQuestions, questionsBytes]
  | cons q qs ih =>
    intro buf p hblen hq hbytes hbound
    have hsplit : questionsBytes (q :: qs) = questionBytes q ++ questionsBytes qs := by
      simp [questionsBytes]
    rw [hsplit] at hbytes hbound
    obtain ⟨h1, h2⟩ := hbytes.append_split
    obtain ⟨hq1, hq2, hq3⟩ := hq q (by simp)
    simp only [List.length_cons, readQuestions,
      DnsQuestion_read_encoded buf q p hblen hq1 hq2 hq3 h1 (by simp at hbound; omega)]
    rw [ih buf (p + (questionBytes q).length) hblen
      (fun q' h' => hq q' (by simp [h'])) h2 (by simp at hbound ⊢; omega)]
    have hpos : p + (questionBytes q).length + (questionsBytes qs).length =
        p + (questionsBytes (q :: qs)).length := by
      rw [hsplit]
      simp
      omega
    rw [hpos]

theorem readRecords_encoded :
    ∀ (rs : List DnsRecord) (buf : List Nat) (p : Nat),
    buf.length = 512 →
    (∀ r ∈ rs, recOk r) →
    HasBytes buf p (sectionBytes rs) →
    p + (sectionBytes rs).length ≤ 512 →
    readRecords ⟨buf, p⟩ rs.length = .ok (rs, ⟨buf, p + (sectionBytes rs).length⟩) := by
  intro rs
  induction rs with
  | nil =>
    intro buf p _ _ _ _
    simp [readRecords, sectionBytes]
  | cons r rs ih =>
    intro buf p hblen hr hbytes hbound
    have hsplit : sectionBytes (r :: rs) = recordBytes r ++ sectionBytes rs := by
      simp [sectionBytes]
    rw [hsplit] at hbytes hbound
    obtain ⟨h1, h2⟩ := hbytes.append_split
    have hrOk := hr r (by simp)
    cases r with
    | UNKNOWN d qt dl ttl => exact absurd hrOk (by simp [recOk])
    | A d addr ttl =>
      obtain ⟨hname, httl, ho1, ho2, ho3, ho4⟩ := hrOk
      simp only [List.length_cons, readRecords,
        DnsRecord_read_encoded buf d addr ttl p hblen hname httl ho1 ho2 ho3 ho4 h1
          (by simp at hbound; omega)]
      rw [ih buf (p + (recordBytes (.A d addr ttl)).length) hblen
        (fun r' h' => hr r' (by simp [h'])) h2 (by simp at hbound ⊢; omega)]
      have hpos : p + (recordBytes (.A d addr ttl)).length + (sectionBytes rs).length =
          p + (sectionBytes (DnsRecord.A d addr ttl :: rs)).length := by
        rw [hsplit]
        simp
        omega
      rw [hpos]

theorem questionsBytes_len_ge (qs : List DnsQuestion) :
    qs.length ≤ (questionsBytes qs).length := by
  induction qs with
  | nil => simp [questionsBytes]
  | cons q qs ih =>
    have h : (questionsBytes (q :: qs)).length =
        (questionBytes q).length + (questionsBytes qs).length := by
      simp [questionsBytes]
    have h2 := questionBytes_length q
    simp only [List.length_cons, h]
    omega

theorem sectionBytes_len_ge (rs : List DnsRecord) (h : ∀ r ∈ rs, recOk r) :
    rs.length ≤ (sectionBytes rs).length := by
  induction rs with
  | nil => simp [sectionBytes]
  | cons r rs ih =>
    have hs : (sectionBytes (r :: rs)).length =
        (recordBytes r).length + (sectionBytes rs).length := by
      simp [sectionBytes]
    have hr := h r (by simp)
    have hge : 1 ≤ (recordBytes r).length := by
      cases r with
      | UNKNOWN d qt dl ttl => exact absurd hr (by simp [recOk])
      | A d addr ttl =>
        rw [recordBytes_A_length]
        omega
    have := ih (fun r' h' => h r' (by simp [h']))
    simp only [List.length_cons, hs]
    omega

theorem fixCounts_eq_self {p : DnsPacket}
    (hcq : p.header.questions = p.questions.length)
    (hca : p.header.answers = p.answers.length)
    (hcau : p.header.authoritative_entries = p.authorities.length)
    (hcre : p.header.resource_entries = p.resources.length)
    (hql : p.questions.length < 65536) (hal : p.answers.length < 65536)
    (haul : p.authorities.length < 65536) (hrel : p.resources.length < 65536) :
    fixCounts p = p := by
  unfold fixCounts
  cases p with
  | mk header questions answers authorities resources =>
    simp only at hcq hca hcau hcre hql hal haul hrel ⊢
    congr 1
    apply DnsHeader_ext <;>
      simp [Nat.mod_eq_of_lt, hcq, hca, hcau, hcre, hql, hal, haul, hrel,
        Nat.mod_eq_of_lt hql, Nat.mod_eq_of_lt hal, Nat.mod_eq_of_lt haul,
        Nat.mod_eq_of_lt hrel]

instance (name : List Nat) : Decidable (nameOk name) :=
  inferInstanceAs (Decidable (∀ l ∈ splitOnDot name,
    l ≠ [] ∧ l.length ≤ 63 ∧ ∀ b ∈ l, b < 128 ∧ lowerByte b = b))

instance (r : DnsRecord) : Decidable (recOk r) :=
  match r with
  | .A d addr ttl =>
    inferInstanceAs (Decidable (nameOk d ∧ ttl < 4294967296 ∧
      addr.o1 < 256 ∧ addr.o2 < 256 ∧ addr.o3 < 256 ∧ addr.o4 < 256))
  | .UNKNOWN _ _ _ _ => inferInstanceAs (Decidable False)

/-- C1.  Round trip: encoding a message into a fresh buffer and decoding the
result reproduces the message exactly, provided the message is well-formed:
header fields within machine range, header counts consistent with the section
lengths, every question name made of nonempty ≤ 63-byte lowercase-ASCII labels
with an in-range question type other than the A-colliding code `UNKNOWN 1`,
and every record an A record with in-range TTL and address octets. -/
theorem decode_encode_roundtrip (p p' : DnsPacket) (s' : BytePacketBuffer)
    (hw : p.write BytePacketBuffer.new = .ok (p', s'))
    (hid : p.header.id < 65536) (hop : p.header.opcode < 16)
    (hcq : p.header.questions = p.questions.length)
    (hca : p.header.answers = p.answers.length)
    (hcau : p.header.authoritative_entries = p.authorities.length)
    (hcre : p.header.resource_entries = p.resources.length)
    (hqOk : ∀ q ∈ p.questions, nameOk q.name ∧ q.qtype.toNat < 65536 ∧
      q.qtype ≠ .UNKNOWN 1)
    (haOk : ∀ r ∈ p.answers, recOk r) (hauOk : ∀ r ∈ p.authorities, recOk r)
    (hreOk : ∀ r ∈ p.resources, recOk r) :
    DnsPacket.from_buffer ⟨s'.buf, 0⟩ = .ok p ∧ p' = p := by
  obtain ⟨hp', w⟩ := DnsPacket_write_wrote (by simp [BytePacketBuffer.new]) hw
  have hblen : s'.buf.length = 512 := by
    rw [w.2.1]
    simp [BytePacketBuffer.new]
  have htot : (packetBytes p).length ≤ 512 := by
    have h1 := w.1
    rcases w.2.2.1 with h2 | h2
    · rw [show BytePacketBuffer.new.pos = 0 from rfl] at h1
      omega
    · rw [h2]
      simp
  have hdecomp : (packetBytes p).length =
      12 + (questionsBytes p.questions).length + (sectionBytes p.answers).length +
        (sectionBytes p.authorities).length + (sectionBytes p.resources).length := by
    simp [packetBytes, headerBytes_length]
    omega
  have hql : p.questions.length < 65536 := by
    have := questionsBytes_len_ge p.questions
    omega
  have hal : p.answers.length < 65536 := by
    have := sectionBytes_len_ge p.answers haOk
    omega
  have haul : p.authorities.length < 65536 := by
    have := sectionBytes_len_ge p.authorities hauOk
    omega
  have hrel : p.resources.length < 65536 := by
    have := sectionBytes_len_ge p.resources hreOk
    omega
  have hfix : fixCounts p = p := fixCounts_eq_self hcq hca hcau hcre hql hal haul hrel
  have hbytes : HasBytes s'.buf 0 (packetBytes p) := by
    intro i hi
    have := w.2.2.2.1 i hi
    rw [show BytePacketBuffer.new.pos = 0 from rfl] at this
    exact this
  rw [show (packetBytes p) =
    headerBytes (fixCounts p).header ++ (questionsBytes p.questions ++
      (sectionBytes p.answers ++ (sectionBytes p.authorities ++
        sectionBytes p.resources))) from by unfold packetBytes; simp [List.append_assoc]] at hbytes
  obtain ⟨hhdr, hrest1⟩ := hbytes.append_split
  rw [headerBytes_length] at hrest1
  obtain ⟨hqs, hrest2⟩ := hrest1.append_split
  obtain ⟨hans, hrest3⟩ := hrest2.append_split
  obtain ⟨hauth, hres⟩ := hrest3.append_split
  have hcq' : (fixCounts p).header.questions = p.questions.length := by
    show p.questions.length % 65536 = p.questions.length
    exact Nat.mod_eq_of_lt hql
  have hca' : (fixCounts p).header.answers = p.answers.length := by
    show p.answers.length % 65536 = p.answers.length
    exact Nat.mod_eq_of_lt hal
  have hcau' : (fixCounts p).header.authoritative_entries = p.authorities.length := by
    show p.authorities.length % 65536 = p.authorities.length
    exact Nat.mod_eq_of_lt haul
  have hcre' : (fixCounts p).header.resource_entries = p.resources.length := by
    show p.resources.length % 65536 = p.resources.length
    exact Nat.mod_eq_of_lt hrel
  refine ⟨?_, by rw [hp', hfix]⟩
  unfold DnsPacket.from_buffer
  simp only [DnsHeader_read_encoded s'.buf (fixCounts p).header 0
    (by show p.header.id < 65536; exact hid) (by show p.header.opcode < 16; exact hop)
    (by rw [hcq']; exact hql) (by rw [hca']; exact hal)
    (by rw [hcau']; exact haul) (by rw [hcre']; exact hrel) hhdr (by omega)]
  rw [hcq']
  simp only [readQuestions_encoded p.questions s'.buf (0 + 12) hblen hqOk hqs
    (by omega)]
  rw [hca']
  simp only [readRecords_encoded p.answers s'.buf
    (0 + 12 + (questionsBytes p.questions).length) hblen haOk hans (by omega)]
  rw [hcau']
  simp only [readRecords_encoded p.authorities s'.buf
    (0 + 12 + (questionsBytes p.questions).length + (sectionBytes p.answers).length)
    hblen hauOk hauth (by omega)]
  rw [hcre']
  simp only [readRecords_encoded p.resources s'.buf
    (0 + 12 + (questionsBytes p.questions).length + (sectionBytes p.answers).length +
      (sectionBytes p.authorities).length) hblen hreOk hres (by omega)]
  have hfixh : (fixCounts p).header = p.header := by rw [hfix]
  rw [hfixh]

/-- A message inside the claim's stated domain (header fields, no questions,
no records — so trivially only A records and lowercase labels) whose header
count field disagrees with its section: three announced answers, none present. -/
def cmsg : DnsPacket :=
  { header := { DnsHeader.new with answers := 3 }
    questions := []
    answers := []
    authorities := []
    resources := [] }

/-- The buffer `cmsg` encodes to. -/
def cmsgEnc : BytePacketBuffer :=
  match cmsg.write BytePacketBuffer.new with
  | .ok (_, s) => s
  | .err _ => BytePacketBuffer.new

/-- Counterexample to C1 as stated: `cmsg` encodes successfully, but decoding
the encoded buffer does not give back `cmsg` (the encoder overwrote the
announced answer count 3 with the actual section length 0). -/
theorem decode_encode_roundtrip_counterexample :
    cmsg.write BytePacketBuffer.new = .ok (fixCounts cmsg, cmsgEnc) ∧
      DnsPacket.from_buffer ⟨cmsgEnc.buf, 0⟩ ≠ .ok cmsg := by
  constructor
  · decide
  · decide

/-- A concrete well-formed message: header flags set, one question and one A
answer over the name `abc.xy`, consistent counts. -/
def rmsg : DnsPacket :=
  { header := { DnsHeader.new with
      id := 1234
      opcode := 3
      rescode := .NXDOMAIN
      z := true
      recursion_desired := true
      questions := 1
      answers := 1 }
    questions := [⟨[97, 98, 99, 46, 120, 121], .A⟩]
    answers := [.A [97, 98, 99, 46, 120, 121] ⟨93, 184, 216, 34⟩ 300]
    authorities := []
    resources := [] }

/-- The buffer `rmsg` encodes to. -/
def rmsgEnc : BytePacketBuffer :=
  match rmsg.write BytePacketBuffer.new with
  | .ok (_, s) => s
  | .err _ => BytePacketBuffer.new

theorem decode_encode_roundtrip_witness :
    DnsPacket.from_buffer ⟨rmsgEnc.buf, 0⟩ = .ok rmsg ∧ fixCounts rmsg = rmsg := by
  have h := decode_encode_roundtrip rmsg (fixCounts rmsg) rmsgEnc (by decide)
    (by decide) (by decide) (by decide) (by decide) (by decide) (by decide)
    (by decide) (by decide) (by decide) (by decide)
  exact ⟨h.1, h.2⟩
